import Mathlib

/-!
# Verification of the Cloud Flow Monitoring data-processing core

A shallow embedding of `src/data_processing/processors.py` and
`src/data_processing/validators.py` (pandas-based Python), together with
theorems about the embedded functions.

Modelling conventions:

* A pandas cell value is a `Val`: a string, an integer, a rational (for
  floats; no claim depends on float rounding), a typed timestamp
  `Val.ts day hour` (only the calendar day and the hour-of-day are ever
  inspected by the code), or `Val.nan` (covering NaN, NaT and None).
* A DataFrame is a list of column names plus a list of rows; a row is an
  association list from column name to `Val`.  Accessing a column that is
  absent from a row yields `Val.nan`.
* `pd.to_datetime(..., errors='coerce')` maps typed timestamps to
  themselves and everything else to `Val.nan` (NaT); with
  `errors='raise'` a non-timestamp, non-missing value raises.  Real
  pandas would additionally parse well-formed date strings; no claim
  depends on string date parsing, and the only string fed to the strict
  parser by the code under verification is the unparseable `"Unknown"`.
* Python `dict` is an insertion-ordered association list: inserting an
  existing key overwrites in place, a new key is appended at the end.
* Exceptions are modelled with `Except`/`Option`; each `try/except` of
  the source is an explicit catch in the embedding.
-/

/-- A pandas cell value. -/
inductive Val where
  | str (s : String)
  | int (n : Int)
  | float (q : Rat)
  | ts (day : Nat) (hour : Nat)
  | nan
deriving DecidableEq, Repr

/-- Python-dict insertion: overwrite in place if the key exists, else append. -/
def dinsert {α β : Type} [DecidableEq α] (d : List (α × β)) (k : α) (v : β) :
    List (α × β) :=
  if d.any (fun p => p.1 = k) then
    d.map (fun p => if p.1 = k then (k, v) else p)
  else d ++ [(k, v)]

/-- Python-dict lookup. -/
def dget? {α β : Type} [DecidableEq α] (d : List (α × β)) (k : α) : Option β :=
  (d.find? (fun p => decide (p.1 = k))).map (·.2)

/-- Keys of a Python dict, in insertion order. -/
def dkeys {α β : Type} (d : List (α × β)) : List α := d.map (·.1)

/-- A DataFrame row: association list from column name to value. -/
abbrev Row := List (String × Val)

/-- Cell access; a column absent from the row reads as missing. -/
def rget (r : Row) (c : String) : Val := (dget? r c).getD .nan

/-- A DataFrame: column names plus rows. -/
structure DF where
  cols : List String
  rows : List Row
deriving Repr

/-- Column assignment `df[c] = f(row)`. -/
def DF.setColWith (df : DF) (c : String) (f : Row → Val) : DF :=
  ⟨if c ∈ df.cols then df.cols else df.cols ++ [c],
   df.rows.map (fun r => dinsert r c (f r))⟩

/-- Broadcast column assignment `df[c] = v`. -/
def DF.setColConst (df : DF) (c : String) (v : Val) : DF :=
  df.setColWith c (fun _ => v)

/-- Boolean-mask row filtering. -/
def DF.filterRows (df : DF) (p : Row → Bool) : DF :=
  ⟨df.cols, df.rows.filter p⟩

/-- The values of one column. -/
def DF.colVals (df : DF) (c : String) : List Val :=
  df.rows.map (fun r => rget r c)

/-- First-occurrence deduplication, tracking the already-seen elements. -/
def dedupFirstAux {α : Type} [DecidableEq α] (seen : List α) : List α → List α
  | [] => []
  | a :: as => if a ∈ seen then dedupFirstAux seen as else a :: dedupFirstAux (a :: seen) as

/-- First-occurrence deduplication (`pandas.Series.unique` /
Python dict-key order). -/
def dedupFirst {α : Type} [DecidableEq α] (l : List α) : List α :=
  dedupFirstAux [] l

/-- The fixed priority table of `processors.py`, read as
`STATUS_PRIORITY.get(x, 0)`: default 0 for unknown (or non-string)
statuses. -/
def STATUS_PRIORITY (v : Val) : Nat :=
  match v with
  | .str "Failed" => 100
  | .str "Error" => 100
  | .str "TimedOut" => 100
  | .str "Running" => 80
  | .str "InProgress" => 80
  | .str "Started" => 80
  | .str "Succeeded" => 60
  | .str "Completed" => 60
  | .str "Done" => 60
  | .str "Skipped" => 40
  | .str "Canceled" => 30
  | .str "Suspended" => 20
  | .str "Paused" => 20
  | .str "No Run" => 0
  | _ => 0

/-- Prefix test on character lists. -/
def chStartsWith : List Char → List Char → Bool
  | _, [] => true
  | [], _ :: _ => false
  | c :: cs, p :: ps => c = p && chStartsWith cs ps

/-- Substring test on character lists (Python `sub in s`). -/
def chContains : List Char → List Char → Bool
  | [], needle => needle.isEmpty
  | l@(_ :: t), needle => chStartsWith l needle || chContains t needle

/-- Fuel-driven split on a non-empty separator (the fuel is the input
length, which always suffices). -/
def chSplitOnGo (sep : List Char) : Nat → List Char → List Char → List (List Char)
  | _, acc, [] => [acc.reverse]
  | 0, acc, rest => [acc.reverse ++ rest]
  | fuel + 1, acc, c :: cs =>
    if chStartsWith (c :: cs) sep then
      acc.reverse :: chSplitOnGo sep fuel [] (List.drop sep.length (c :: cs))
    else chSplitOnGo sep fuel (c :: acc) cs

/-- Python `s.split(sep)` for a non-empty separator. -/
def strSplitOn (s sep : String) : List String :=
  if sep.data.isEmpty then [s]
  else (chSplitOnGo sep.data s.data.length [] s.data).map String.mk

/-- Split at every character satisfying `p`, keeping empty segments. -/
def chSplitP (p : Char → Bool) : List Char → List Char → List (List Char)
  | acc, [] => [acc.reverse]
  | acc, c :: cs => if p c then acc.reverse :: chSplitP p [] cs else chSplitP p (c :: acc) cs

/-- Python `s.strip()`. -/
def strTrim (s : String) : String :=
  String.mk (((s.data.dropWhile Char.isWhitespace).reverse.dropWhile Char.isWhitespace).reverse)

/-- Python `s.upper()` (ASCII model). -/
def strUpper (s : String) : String := String.mk (s.data.map Char.toUpper)

/-- Python `s.lower()` (ASCII model). -/
def strLower (s : String) : String := String.mk (s.data.map Char.toLower)

/-- Lexicographic comparison of character lists by code point
(Python `<` on `str`). -/
def chLt : List Char → List Char → Bool
  | [], [] => false
  | [], _ :: _ => true
  | _ :: _, [] => false
  | a :: as, b :: bs => a < b || (a = b && chLt as bs)

/-- Python `<` on strings. -/
def strLt (a b : String) : Bool := chLt a.data b.data

/-- ASCII uppercase test (regex `[A-Z]`, and `str.isupper` on the ASCII
inputs exercised here). -/
def isUpperCh (c : Char) : Bool := 'A' ≤ c && c ≤ 'Z'

/-- ASCII lowercase test (regex `[a-z]`). -/
def isLowerCh (c : Char) : Bool := 'a' ≤ c && c ≤ 'z'

/-- ASCII alphabetic test (regex `[A-Za-z]`). -/
def isAlphaCh (c : Char) : Bool := isUpperCh c || isLowerCh c

/-- Substring test, Python `sub in s`. -/
def strContains (s sub : String) : Bool := chContains s.data sub.data

/-- Python `s.split()`: split on whitespace runs, dropping empty parts. -/
def pySplitWs (s : String) : List String :=
  ((chSplitP Char.isWhitespace [] s.data).map String.mk).filter (fun w => w ≠ "")

/-- Python `s.replace(old, '')` — remove every occurrence. -/
def removeAll (s old : String) : String := String.join (strSplitOn s old)

/-- Regex `CAMEL_CASE_PATTERN = re.compile(r'^([A-Z][a-z]+)')` applied with
`.match`: an uppercase letter at the start followed by one or more
lowercase letters (greedy). -/
def camelMatch (s : String) : Option String :=
  match s.data with
  | [] => none
  | c :: rest =>
    if isUpperCh c then
      let run := rest.takeWhile isLowerCh
      if run.isEmpty then none else some (String.mk (c :: run))
    else none

/-- Regex `ALPHA_SEQUENCE_PATTERN = re.compile(r'[A-Za-z]{3,}')` applied
with `.search`: the maximal alphabetic run at the earliest position
where at least three alphabetic characters occur consecutively. -/
def alphaSearch : List Char → Option String
  | [] => none
  | c :: rest =>
    let run := (c :: rest).takeWhile isAlphaCh
    if run.length ≥ 3 then some (String.mk run)
    else alphaSearch rest

/-- Regex `SPLIT_PATTERN = re.compile(r'[_\s-]')` used with `.split`: split on
every single occurrence of an underscore, whitespace or hyphen
character, keeping empty segments (Python `re.split` semantics). -/
def reSplitParts (s : String) : List String :=
  (chSplitP (fun c => c = '_' || c.isWhitespace || c = '-') [] s.data).map String.mk

/-- The `COMMON_IDENTIFIERS` frozenset, in source order (the Python `frozenset`
iteration order is unspecified; the claims never depend on it). -/
def COMMON_IDENTIFIERS : List String := ["AMZ", "AWS", "C2D", "AZ", "WF", "PS", "VP", "BI"]

/-- The heuristic cascade of `extract_project_name` on a stripped,
non-empty flow name. -/
def extractCore (s : String) : String :=
  -- Pattern 1: text before ' - '
  if strContains s " - " then strTrim ((strSplitOn s " - ").headD "")
  -- Pattern 2: text before '_'
  else if strContains s "_" then strTrim ((strSplitOn s "_").headD "")
  else match camelMatch s with
  -- Pattern 3: first CamelCase word
  | some w => w
  | none =>
    -- Pattern 4: first word if capitalized and longer than 2
    let words := pySplitWs s
    match words with
    | w :: _ =>
      if w.length > 2 ∧ isUpperCh (w.data.headD ' ') then w
      else extractTail s
    | [] => extractTail s
where
  /-- Patterns 5 and 6 of the cascade. -/
  extractTail (s : String) : String :=
    let upper := strUpper s
    let viaId := COMMON_IDENTIFIERS.findSome? (fun id =>
      if strContains upper id then
        (reSplitParts s).find? (fun part => strContains (strUpper part) id)
      else none)
    match viaId with
    | some part => part
    | none =>
      match alphaSearch s.data with
      | some run => run
      | none => "Unknown"

/-- Function `extract_project_name` of `processors.py` (lines 56–110).  The
argument is a `Val` because the function is applied to raw column values
and guards on `isinstance(flow_name, str)`. -/
def extract_project_name (flow_name : Val) : String :=
  match flow_name with
  | .str s =>
    if strTrim s = "" then "Unknown"
    else extractCore (strTrim s)
  | _ => "Unknown"

/-- Test for a missing value (`pd.isna` on our value model). -/
def Val.isNa (v : Val) : Bool := v = .nan

/-- Python `Series.fillna(d)` on one cell. -/
def fillna (v d : Val) : Val := if v.isNa then d else v

/-- Coercion `pd.to_datetime(v, errors='coerce')`: typed timestamps pass
through, everything else becomes NaT (see the modelling conventions). -/
def toDatetimeCoerce (v : Val) : Val :=
  match v with
  | .ts d h => .ts d h
  | _ => .nan

/-- Strict parse `pd.to_datetime(v, errors='raise')`: missing values
become NaT, typed timestamps pass through, anything else raises. -/
def toDatetimeStrict (v : Val) : Except String Val :=
  match v with
  | .ts d h => .ok (.ts d h)
  | .nan => .ok .nan
  | _ => .error "to_datetime"

/-- Accessor `.dt.hour` (NaT gives NaN). -/
def dtHour (v : Val) : Val :=
  match v with
  | .ts _ h => .int h
  | _ => .nan

/-- Elementwise pandas string concatenation: str+str concatenates, a
missing operand propagates NaN, any other operand raises `TypeError`. -/
def strCat (a b : Val) : Except String Val :=
  match a, b with
  | .str x, .str y => .ok (.str (x ++ y))
  | .nan, _ => .ok .nan
  | _, .nan => .ok .nan
  | _, _ => .error "concat"

/-- Numeric view of a cell for aggregation. -/
def valToRat? (v : Val) : Option Rat :=
  match v with
  | .int n => some (n : Rat)
  | .float q => some q
  | _ => none

/-- Mean of the numeric cells of a group, skipping missing values
(`GroupBy.transform('mean')` on one group); raises on non-numeric,
non-missing data. -/
def meanVals (vs : List Val) : Except String Val :=
  if vs.all (fun v => v.isNa || (valToRat? v).isSome) then
    let nums := vs.filterMap valToRat?
    if nums.isEmpty then .ok .nan
    else .ok (.float ((nums.foldl (· + ·) 0) / (nums.length : Rat)))
  else .error "mean"

/-- Column assignment
`df.groupby(g)['v'].transform('mean') * 100` used for `success_rate`:
rows whose group key is missing get NaN (pandas drops NaN group keys);
raises if any `v` cell is non-numeric and non-missing. -/
def transformMeanTimes100 (df : DF) (g v tgt : String) : Except String DF := do
  if df.rows.all (fun r => (rget r v).isNa || (valToRat? (rget r v)).isSome) then
    let rows := df.rows.map (fun r =>
      let key := rget r g
      let val :=
        if key.isNa then Val.nan
        else
          match meanVals ((df.rows.filter (fun r2 => rget r2 g = key)).map (fun r2 => rget r2 v)) with
          | .ok (.float q) => Val.float (q * 100)
          | .ok other => other
          | .error _ => Val.nan
      dinsert r tgt val)
    pure ⟨if tgt ∈ df.cols then df.cols else df.cols ++ [tgt], rows⟩
  else .error "mean"

/-- Function `validate_raw_data` of `validators.py` (lines 21–87). -/
def validate_raw_data (df? : Option DF) : Bool × String × Option DF :=
  match df? with
  | none => (false, "No data available", none)
  | some df =>
  if df.rows.isEmpty then (false, "No data available", none)
  else
    let required := ["flowname", "flowowner", "datetimestarted", "taskstatus"]
    let missing := required.filter (fun c => c ∉ df.cols)
    if ¬ missing.isEmpty then
      (false, "Missing required columns: " ++ String.intercalate ", " missing, none)
    else
      let df := df.setColWith "datetimestarted" (fun r => toDatetimeCoerce (rget r "datetimestarted"))
      let df := df.filterRows (fun r => ¬ (rget r "datetimestarted").isNa)
      let df := df.setColWith "taskstatus" (fun r => fillna (rget r "taskstatus") (.str "No Run"))
      let df :=
        if "wassuccessful" ∉ df.cols ∧ "taskstatus" ∈ df.cols then
          df.setColWith "wassuccessful" (fun r =>
            match rget r "taskstatus" with
            | .str s => if strLower s = "succeeded" ∨ strLower s = "completed" then .int 1 else .int 0
            | _ => .int 0)  -- `.str.lower()` of a non-string is NaN; `isin` is then false
        else df
      let df := df.setColWith "flowowner" (fun r => fillna (rget r "flowowner") (.str "Unknown"))
      let df :=
        if "triggertype" ∈ df.cols then
          df.setColWith "triggertype" (fun r => fillna (rget r "triggertype") (.str "unknown"))
        else df.setColConst "triggertype" (.str "unknown")
      (true, "Validation successful", some df)

/-- The required-column backfill loop of `validate_processed_data`
(lines 107–115): `owner` falls back to `flowowner` when available, the
other required columns are backfilled with the string `'Unknown'`. -/
def vpRequiredLoop (df : DF) : DF :=
  ["owner", "automation_project", "flowname", "taskstatus", "datetimestarted"].foldl
    (fun df c =>
      if c ∈ df.cols then df
      else if c = "owner" ∧ "flowowner" ∈ df.cols then
        df.setColWith "owner" (fun r => rget r "flowowner")
      else df.setColConst c (.str "Unknown"))
    df

/-- Body of `validate_processed_data` on a non-empty frame; the
exceptions of the two strict derivations (`hour` from
`pd.to_datetime(..., errors='raise')` and the `display_name` string
concatenation) escape to the outer handler. -/
def vpBody (df : DF) : Except String DF := do
  let df := vpRequiredLoop df
  let df ←
    if "hour" ∉ df.cols ∧ "datetimestarted" ∈ df.cols then do
      let rows ← df.rows.mapM (fun r => do
        let t ← toDatetimeStrict (rget r "datetimestarted")
        pure (dinsert r "hour" (dtHour t)))
      pure (⟨df.cols ++ ["hour"], rows⟩ : DF)
    else pure df
  let df ←
    if "display_name" ∉ df.cols then do
      let rows ← df.rows.mapM (fun r => do
        let a ← strCat (rget r "owner") (.str " | ")
        let b ← strCat a (rget r "automation_project")
        let c ← strCat b (.str " | ")
        let d ← strCat c (rget r "flowname")
        pure (dinsert r "display_name" d))
      pure (⟨df.cols ++ ["display_name"], rows⟩ : DF)
    else pure df
  let df :=
    if "wassuccessful" ∈ df.cols ∧ "success_rate" ∉ df.cols then
      -- inner try/except: a failure of the mean falls back to the
      -- constant column 0
      match transformMeanTimes100 df "flowname" "wassuccessful" "success_rate" with
      | .ok df2 => df2
      | .error _ => df.setColConst "success_rate" (.int 0)
    else df
  pure df

/-- Function `validate_processed_data` of `validators.py` (lines
89–141). -/
def validate_processed_data (df? : Option DF) : Bool × String × Option DF :=
  match df? with
  | none => (false, "No processed data available", none)
  | some df =>
  if df.rows.isEmpty then (false, "No processed data available", none)
  else
    match vpBody df with
    | .ok v => (true, "Validation successful", some v)
    | .error e => (false, "Validation error: " ++ e, none)

/-- Python `str.title()` (ASCII model): a letter is uppercased when the
previous character is not a letter, lowercased otherwise. -/
def pyTitleGo : Bool → List Char → List Char
  | _, [] => []
  | prevAlpha, c :: cs =>
    let c' := if isAlphaCh c then (if prevAlpha then c.toLower else c.toUpper) else c
    c' :: pyTitleGo (isAlphaCh c) cs

/-- Python `str.title()` on a whole string. -/
def pyTitle (s : String) : String := String.mk (pyTitleGo false s.data)

/-- The column set `PROCESS_COLUMNS` (a Python `set`; its iteration
order is unspecified, and the backfills are independent, so a fixed
order is used; `wassuccessful` is placed last, which yields the same
values as any other order). -/
def PROCESS_COLUMNS : List String :=
  ["datetimestarted", "flowname", "taskstatus", "flowowner", "triggertype", "wassuccessful"]

/-- The column backfill loop of `process_data_for_dashboard`
(lines 133–142). -/
def processBackfill (df : DF) : DF :=
  PROCESS_COLUMNS.foldl
    (fun df c =>
      if c ∈ df.cols then df
      else if c = "wassuccessful" then
        if "taskstatus" ∈ df.cols then
          df.setColWith "wassuccessful" (fun r =>
            if rget r "taskstatus" = .str "Succeeded" then .int 1 else .int 0)
        else df.setColConst "wassuccessful" (.int 0)
      else if c = "triggertype" then df.setColConst "triggertype" (.str "unknown")
      else df.setColConst c .nan)  -- `processed_df[col] = None`
    df

/-- Body of `process_data_for_dashboard` on a non-empty frame.  The
`day_filter` argument models an already-parsed calendar day (an
unparseable filter string would be caught by the inner handler and
leave the data unfiltered).  Failures of the strict `hour` derivation,
of the `display_name` concatenation and of the `success_rate` mean
escape to the outer handler. -/
def process_body (df : DF) (day_filter : Option Nat) : Except String DF := do
  let df := processBackfill df
  let df :=
    match day_filter with
    | none => df
    | some d =>
      -- the try block of lines 146–163: coerce timestamps, drop NaT
      -- rows, keep rows whose date component equals the filter date
      let dfc := df.setColWith "datetimestarted" (fun r => toDatetimeCoerce (rget r "datetimestarted"))
      let dfc := dfc.filterRows (fun r => ¬ (rget r "datetimestarted").isNa)
      dfc.filterRows (fun r =>
        match rget r "datetimestarted" with
        | .ts dd _ => dd = d
        | _ => false)
  let rows ← df.rows.mapM (fun r => do
    let t ← toDatetimeStrict (rget r "datetimestarted")
    pure (dinsert r "hour" (dtHour t)))
  let df : DF := ⟨if "hour" ∈ df.cols then df.cols else df.cols ++ ["hour"], rows⟩
  let df := df.setColWith "owner" (fun r =>
    match rget r "flowowner" with
    | .str s => .str (pyTitle (removeAll s " serviceaccount"))
    | _ => .nan)  -- the `.str` accessor maps non-string cells to NaN
  let df := df.setColWith "automation_project" (fun r =>
    .str (extract_project_name (rget r "flowname")))
  let df :=
    if "triggertype" ∈ df.cols then
      df.setColWith "trigger_group" (fun r =>
        if rget r "triggertype" = .str "manual" then .str "Manual"
        else if rget r "triggertype" = .str "Recurrence" then .str "Recurrence"
        else .str "OtherTrigger")
    else df
  let rows ← df.rows.mapM (fun r => do
    let a ← strCat (rget r "owner") (.str " | ")
    let b ← strCat a (rget r "automation_project")
    let c ← strCat b (.str " | ")
    let d ← strCat c (rget r "flowname")
    pure (dinsert r "display_name" d))
  let df : DF := ⟨if "display_name" ∈ df.cols then df.cols else df.cols ++ ["display_name"], rows⟩
  let df ←
    if "wassuccessful" ∈ df.cols then
      transformMeanTimes100 df "flowname" "wassuccessful" "success_rate"
    else pure df
  pure df

/-- Function `process_data_for_dashboard` of `processors.py`
(lines 112–198): any internal exception degrades to an empty frame. -/
def process_data_for_dashboard (df? : Option DF) (day_filter : Option Nat) : DF :=
  match df? with
  | none => ⟨[], []⟩
  | some df =>
  if df.rows.isEmpty then ⟨[], []⟩
  else
    match process_body df day_filter with
    | .ok r => r
    | .error _ => ⟨[], []⟩

/-- An hour-to-status mapping of one matrix row (a Python dict). -/
abbrev HourMap := List (Val × Val)

/-- The `bot_hour_status` structure: display name to hour map. -/
abbrev Cells := List (Val × HourMap)

/-- The triple returned by `create_hourly_matrix`. -/
abbrev MatrixResult := Cells × List Val × List Val

/-- The fixed hour axis `list(range(24))`. -/
def range24 : List Val := (List.range 24).map (fun h => Val.int (Int.ofNat h))

/-- Valid display name: a non-empty string
(`isinstance(name, str) and name`). -/
def isGoodName (v : Val) : Bool :=
  match v with
  | .str s => s ≠ ""
  | _ => false

/-- Valid cell status: a non-empty string
(`isinstance(status, str) and status`). -/
def isGoodStatus (v : Val) : Bool :=
  match v with
  | .str s => s ≠ ""
  | _ => false

/-- Valid hour: an integer in `0..23` (`isinstance(h, int) and 0 <= h <= 23`). -/
def isValidHourVal (v : Val) : Bool :=
  match v with
  | .int i => 0 ≤ i && i ≤ 23
  | _ => false

/-- One rebuilt hour map of `validate_matrix_data` (lines 197–204). -/
def vmHourMap (bhs : Cells) (hours : List Val) (name : Val) : HourMap :=
  hours.foldl
    (fun m h =>
      let status := (dget? ((dget? bhs name).getD []) h).getD (.str "No Run")
      let status := if isGoodStatus status then status else .str "No Run"
      dinsert m h status)
    []

/-- The per-name repair loop of `validate_matrix_data` (lines 186–208),
threading the pair `(valid_bot_hour_status, valid_display_names)`. -/
def vmLoop (bhs : Cells) (hours : List Val) (acc : Cells × List Val) :
    List Val → Cells × List Val
  | [] => acc
  | n :: ns =>
    if isGoodName n then
      vmLoop bhs hours (dinsert acc.1 n (vmHourMap bhs hours n), acc.2 ++ [n]) ns
    else vmLoop bhs hours acc ns

/-- Function `validate_matrix_data` of `validators.py` (lines 143–218).
The `isinstance(bot_hour_status, dict)` and `isinstance(display_names,
list)` guards are vacuous in the typed embedding. -/
def validate_matrix_data (bhs : Cells) (display_names : List Val) (hours : List Val) :
    Bool × String × MatrixResult :=
  let names := if display_names.isEmpty ∧ ¬ bhs.isEmpty then dkeys bhs else display_names
  if names.isEmpty then
    (false, "Invalid or empty display_names", (bhs, [], range24))
  else
    let hours := if hours.isEmpty then range24 else hours
    let valid_hours := hours.filter isValidHourVal
    let hours :=
      if valid_hours.length = hours.length then hours
      else if valid_hours.isEmpty then range24 else valid_hours
    let (vbhs, vnames) := vmLoop bhs hours ([], []) names
    if vnames.isEmpty then
      (false, "No valid display names", ([], [], hours))
    else
      (true, "Validation successful", (vbhs, vnames, hours))

/-- Strict string order on wrapped values (Python `<` on `str`). -/
def strLtVal (a b : Val) : Bool :=
  match a, b with
  | .str x, .str y => strLt x y
  | _, _ => false

/-- Strict integer order on wrapped values. -/
def intLtVal (a b : Val) : Bool :=
  match a, b with
  | .int x, .int y => x < y
  | _, _ => false

/-- Sorted insertion (used to model the sorts of `np.unique` and of
`groupby` key ordering). -/
def insSorted {α : Type} (lt : α → α → Bool) (x : α) : List α → List α
  | [] => [x]
  | y :: ys => if lt x y then x :: y :: ys else y :: insSorted lt x ys

/-- Insertion sort. -/
def sortBy {α : Type} (lt : α → α → Bool) (l : List α) : List α :=
  l.foldr (insSorted lt) []

/-- Test for a string cell. -/
def Val.isStr (v : Val) : Bool :=
  match v with
  | .str _ => true
  | _ => false

/-- Test for an integer cell. -/
def Val.isInt (v : Val) : Bool :=
  match v with
  | .int _ => true
  | _ => false

/-- Model of `np.unique` on an object array: distinct values in
ascending order.  Sorting compares with Python `<`, which raises
`TypeError` on heterogeneous values (`none` result); a single distinct
value needs no comparison. -/
def npUnique (vs : List Val) : Option (List Val) :=
  let d := dedupFirst vs
  if d.length ≤ 1 then some d
  else if d.all Val.isStr then some (sortBy strLtVal d)
  else if d.all Val.isInt then some (sortBy intLtVal d)
  else none

/-- Python `max(xs, key=f)`: the first element attaining the maximal
key (later elements replace only on a strictly greater key).  Python
raises on an empty sequence; the embedding never applies this to an
empty list. -/
def pyMaxBy (f : Val → Nat) : List Val → Val
  | [] => .nan
  | x :: xs => xs.foldl (fun acc y => if f y > f acc then y else acc) x

/-- The `(display_name, hour)` group key of a row. -/
def groupKeyOf (r : Row) : Val × Val := (rget r "display_name", rget r "hour")

/-- The statuses of one `(display_name, hour)` bucket. -/
def bucketStatuses (rows : List Row) (k : Val × Val) : List Val :=
  (rows.filter (fun r => groupKeyOf r = k)).map (fun r => rget r "taskstatus")

/-- Lexicographic order on group keys (string name, integer hour). -/
def keyLt (a b : Val × Val) : Bool :=
  strLtVal a.1 b.1 || (a.1 = b.1 && intLtVal a.2 b.2)

/-- The group-processing loop of `create_hourly_matrix` (lines
355–368), inside the `try` of line 349: a group whose name is not a
matrix key is skipped (short-circuit `and`); comparing a non-integer
hour with `0 <= hour` raises, aborting the loop with the cells filled
so far; so does `np.unique` on heterogeneous statuses. -/
def fillStep (rows : List Row) : Cells → List (Val × Val) → Cells
  | bhs, [] => bhs
  | bhs, k :: ks =>
    if (dget? bhs k.1).isSome then
      match k.2 with
      | .int i =>
        if 0 ≤ i ∧ i ≤ 23 then
          match npUnique (bucketStatuses rows k) with
          | some us =>
            fillStep rows
              (dinsert bhs k.1 (dinsert ((dget? bhs k.1).getD []) k.2 (pyMaxBy STATUS_PRIORITY us))) ks
          | none => bhs
        else fillStep rows bhs ks
      | _ => bhs
    else fillStep rows bhs ks

/-- The `groupby(['display_name', 'hour'])` stage of
`create_hourly_matrix` (lines 349–372): rows with a missing group key
are dropped; iterating the groups sorts the keys, which raises on
heterogeneous keys (leaving the initialized cells untouched) unless
there is at most one group. -/
def fillGroups (rows : List Row) (bhs : Cells) : Cells :=
  let grows := rows.filter (fun r => ¬ (rget r "display_name").isNa && ¬ (rget r "hour").isNa)
  let keys := dedupFirst (grows.map groupKeyOf)
  if keys.length ≤ 1 then fillStep grows bhs keys
  else if keys.all (fun k => k.1.isStr && k.2.isInt) then
    fillStep grows bhs (sortBy keyLt keys)
  else bhs

/-- Projection of a row onto the matrix columns (`df[list(MATRIX_COLUMNS)]`). -/
def restrictRow (r : Row) (cs : List String) : Row := cs.map (fun c => (c, rget r c))

/-- The `MATRIX_COLUMNS` set (fixed order; only membership matters). -/
def MATRIX_COLUMNS : List String :=
  ["display_name", "automation_project", "taskstatus", "hour"]

/-- Function `create_hourly_matrix` of `processors.py` (lines 200–400).

Two branches of the source always raise and are embedded as their
handler's result:

* the display-name repair block (lines 285–311) dereferences
  `matrix_df`, which was deleted at line 271, so its first statement
  raises `UnboundLocalError` and the handler at line 309 returns the
  empty matrix;
* the entity-capping block (lines 318–342) builds `status_counts` via
  `SeriesGroupBy.apply` returning a `pd.Series`, which produces a
  Series with a MultiIndex `(display_name, {'failed','running','total'})`,
  so `status_counts['failed']` at line 334 raises `KeyError` and the
  outer handler (line 398) returns the empty matrix. -/
def create_hourly_matrix (df? : Option DF) (selected_project : String)
    (selected_status : String) (max_rows : Nat) : MatrixResult :=
  let hours := range24
  let emptyRes : MatrixResult := ([], [], hours)
  match df? with
  | none => emptyRes
  | some df =>
  if df.rows.isEmpty then emptyRes
  else
    let v := validate_processed_data (some df)
    -- on a failed validation the repaired frame is used if present;
    -- on success the original frame is kept (the repaired one is discarded)
    let chosen : Option DF := if v.1 then some df else v.2.2
    match chosen with
    | none => emptyRes
    | some df =>
    if MATRIX_COLUMNS.all (fun c => c ∈ df.cols) then
      let matrixRows := df.rows.map (fun r => restrictRow r MATRIX_COLUMNS)
      let mask : Row → Bool := fun r =>
        (selected_project = "All Projects" || rget r "automation_project" = .str selected_project) &&
        (selected_status = "All Statuses" || rget r "taskstatus" = .str selected_status)
      let filtered := matrixRows.filter mask
      if filtered.isEmpty then emptyRes
      else
        let invalidName : Row → Bool := fun r =>
          (rget r "display_name").isNa || rget r "display_name" = .str ""
        let goodRows := filtered.filter (fun r => ¬ invalidName r)
        if goodRows.isEmpty then
          -- repair block, lines 285–311: always raises (see above)
          emptyRes
        else
          let display_names := dedupFirst (goodRows.map (fun r => rget r "display_name"))
          if display_names.length > max_rows then
            -- capping block, lines 318–342: always raises (see above)
            emptyRes
          else
            let bhs0 : Cells := display_names.foldl
              (fun d n => dinsert d n (range24.foldl (fun m h => dinsert m h (.str "No Run")) [])) []
            let bhs := fillGroups goodRows bhs0
            -- lines 376–381: recover display names from the matrix keys
            let display_names :=
              if display_names.isEmpty ∧ ¬ bhs.isEmpty then dkeys bhs else display_names
            let vm := validate_matrix_data bhs display_names hours
            -- lines 384–396: on failure `validated_data` is a non-empty
            -- tuple, hence truthy, so both branches return it
            vm.2.2
    else emptyRes

/-- Lookup of one matrix cell: `bot_hour_status[name][hour]`. -/
def cellGet (c : Cells) (n h : Val) : Option Val :=
  (dget? c n).bind (fun m => dget? m h)

/-- The statuses of the `(n, hour i)` bucket reduced the way the group
loop of `create_hourly_matrix` reduces them; `"No Run"` for an empty
bucket (which is never grouped). -/
def cellVal (rows : List Row) (n h : Val) : Val :=
  let b := bucketStatuses rows (n, h)
  if b.isEmpty then .str "No Run"
  else pyMaxBy STATUS_PRIORITY ((npUnique b).getD [])

/-- A normalized row that is well formed for matrix building: a
non-empty string display name, an integer hour in `0..23` and a
non-empty string status. -/
def WFRow (r : Row) : Prop :=
  (∃ s, rget r "display_name" = .str s ∧ s ≠ "") ∧
  (∃ i, rget r "hour" = .int i ∧ 0 ≤ i ∧ i ≤ 23) ∧
  (∃ s, rget r "taskstatus" = .str s ∧ s ≠ "")

/-- The closed status vocabulary of the presentation layer (the keys of
`STATUS_EMOJIS` in `bot_monitor_dashboard.py`). -/
def STATUS_VOCABULARY : List String :=
  ["Succeeded", "Failed", "Running", "No Run", "Completed", "Canceled",
   "Suspended", "Skipped", "Error", "TimedOut"]

/-- A single-entity normalized row at a given hour and status (used by
the concrete witnesses). -/
def exRow (h : Nat) (st : String) : Row :=
  [("display_name", .str "X"), ("automation_project", .str "P"),
   ("taskstatus", .str st), ("hour", .int h)]

/-- A normalized batch holding buckets {Succeeded, Failed} at hour 2,
{Succeeded, Running} at hour 3, {Skipped} at hour 4 and the tie
{Succeeded, Completed} at hour 5. -/
def exDF : DF :=
  ⟨MATRIX_COLUMNS,
   [exRow 2 "Succeeded", exRow 2 "Failed", exRow 3 "Succeeded", exRow 3 "Running",
    exRow 4 "Skipped", exRow 5 "Succeeded", exRow 5 "Completed"]⟩

/-- A normalized row whose status `"Done"` is scored by the priority
table but lies outside the presentation vocabulary. -/
def c2DF : DF :=
  ⟨MATRIX_COLUMNS,
   [[("display_name", .str "A | B | C"), ("automation_project", .str "B"),
     ("taskstatus", .str "Done"), ("hour", .int 5)]]⟩

/-- Entity names for the 400-entity capping batch (distinct by
length). -/
def c3Name (i : Nat) : String := String.mk (List.replicate (i + 1) 'E')

/-- One row of the capping batch: entities 0–9 fail, the rest succeed. -/
def c3Row (i : Nat) : Row :=
  [("display_name", .str (c3Name i)), ("automation_project", .str "P"),
   ("taskstatus", .str (if i < 10 then "Failed" else "Succeeded")), ("hour", .int 0)]

/-- A normalized batch with 400 distinct entities, 10 of which have a
`"Failed"` row. -/
def c3DF : DF := ⟨MATRIX_COLUMNS, (List.range 400).map c3Row⟩

/-- A normalized batch whose only display name is empty while owner,
project and flow name are all available for reconstruction. -/
def c4DF : DF :=
  ⟨["display_name", "automation_project", "taskstatus", "hour", "owner", "flowname",
    "datetimestarted"],
   [[("display_name", .str ""), ("automation_project", .str "P"),
     ("taskstatus", .str "Succeeded"), ("hour", .int 2), ("owner", .str "O"),
     ("flowname", .str "F"), ("datetimestarted", .ts 0 2)]]⟩

/-- A raw batch with one `"Completed"` row and no `wassuccessful`
column. -/
def c5DF : DF :=
  ⟨["flowname", "flowowner", "datetimestarted", "taskstatus", "triggertype"],
   [[("flowname", .str "F"), ("flowowner", .str "O"),
     ("datetimestarted", .ts 0 1), ("taskstatus", .str "Completed"),
     ("triggertype", .str "Manual")]]⟩

/-- A non-empty batch missing both `hour` and `datetimestarted`. -/
def c6DF : DF := ⟨["flowname"], [[("flowname", .str "F")]]⟩

/-- Decidable well-formedness check for one row (used by concrete
witnesses). -/
def WFRowB (r : Row) : Bool :=
  isGoodName (rget r "display_name") && isValidHourVal (rget r "hour") &&
    isGoodStatus (rget r "taskstatus")


-- ### Dictionary lemmas

theorem dget?_nil {α β : Type} [DecidableEq α] (k : α) :
    dget? ([] : List (α × β)) k = none := rfl

theorem dget?_cons {α β : Type} [DecidableEq α] (p : α × β) (d : List (α × β)) (k : α) :
    dget? (p :: d) k = if p.1 = k then some p.2 else dget? d k := by
  by_cases hp : p.1 = k <;> simp [dget?, List.find?, hp]

theorem dkeys_nil {α β : Type} : dkeys ([] : List (α × β)) = [] := rfl

theorem dkeys_cons {α β : Type} (p : α × β) (d : List (α × β)) :
    dkeys (p :: d) = p.1 :: dkeys d := rfl

theorem any_key_iff {α β : Type} [DecidableEq α] (d : List (α × β)) (k : α) :
    d.any (fun p => p.1 = k) = true ↔ k ∈ dkeys d := by
  induction d with
  | nil => simp [dkeys_nil]
  | cons p d ih =>
    rw [List.any_cons, dkeys_cons]
    by_cases hp : p.1 = k
    · simp [hp]
    · simp [hp, ih, Ne.symm hp]

theorem dget?_eq_none_iff {α β : Type} [DecidableEq α] (d : List (α × β)) (k : α) :
    dget? d k = none ↔ k ∉ dkeys d := by
  induction d with
  | nil => simp [dget?_nil, dkeys_nil]
  | cons p d ih =>
    rw [dget?_cons, dkeys_cons]
    by_cases hp : p.1 = k
    · simp [hp]
    · simp [hp, ih, Ne.symm hp]

theorem dget?_isSome_iff {α β : Type} [DecidableEq α] (d : List (α × β)) (k : α) :
    (dget? d k).isSome = true ↔ k ∈ dkeys d := by
  rcases h : dget? d k with _ | v
  · simpa [h] using (dget?_eq_none_iff d k).1 h
  · simp only [Option.isSome_some, true_iff]
    by_contra hk
    rw [(dget?_eq_none_iff d k).2 hk] at h
    exact Option.noConfusion h

theorem dget?_map_replace_ne {α β : Type} [DecidableEq α] (d : List (α × β)) (k k' : α) (v : β)
    (hne : k' ≠ k) :
    dget? (d.map (fun p => if p.1 = k then (k, v) else p)) k' = dget? d k' := by
  induction d with
  | nil => rfl
  | cons p d ih =>
    by_cases hp : p.1 = k
    · rw [List.map_cons, if_pos hp, dget?_cons, dget?_cons, hp]
      rw [if_neg (Ne.symm hne), if_neg (Ne.symm hne)]
      exact ih
    · rw [List.map_cons, if_neg hp, dget?_cons, dget?_cons]
      by_cases hp' : p.1 = k' <;> simp [hp', ih]

theorem dget?_append_single_ne {α β : Type} [DecidableEq α] (d : List (α × β)) (k k' : α) (v : β)
    (hne : k' ≠ k) :
    dget? (d ++ [(k, v)]) k' = dget? d k' := by
  induction d with
  | nil => simp [dget?_cons, dget?_nil, Ne.symm hne]
  | cons p d ih =>
    rw [List.cons_append, dget?_cons, dget?_cons]
    by_cases hp' : p.1 = k' <;> simp [hp', ih]

theorem dget?_dinsert_self {α β : Type} [DecidableEq α] (d : List (α × β)) (k : α) (v : β) :
    dget? (dinsert d k v) k = some v := by
  by_cases hany : d.any (fun p => p.1 = k)
  · simp only [dinsert, if_pos hany]
    induction d with
    | nil => simp at hany
    | cons p d ih =>
      by_cases hp : p.1 = k
      · rw [List.map_cons, if_pos hp, dget?_cons]
        simp
      · simp only [List.any_cons, Bool.or_eq_true, decide_eq_true_eq] at hany
        rcases hany with h | h
        · exact absurd h hp
        · rw [List.map_cons, if_neg hp, dget?_cons, if_neg hp]
          exact ih h
  · simp only [dinsert, if_neg hany]
    induction d with
    | nil => simp [dget?_cons]
    | cons p d ih =>
      simp only [List.any_cons, Bool.or_eq_true, decide_eq_true_eq, not_or] at hany
      rw [List.cons_append, dget?_cons, if_neg hany.1]
      exact ih hany.2

theorem dget?_dinsert_ne {α β : Type} [DecidableEq α] (d : List (α × β)) (k k' : α) (v : β)
    (hne : k' ≠ k) : dget? (dinsert d k v) k' = dget? d k' := by
  by_cases hany : d.any (fun p => p.1 = k)
  · simp only [dinsert, if_pos hany]
    exact dget?_map_replace_ne d k k' v hne
  · simp only [dinsert, if_neg hany]
    exact dget?_append_single_ne d k k' v hne

theorem dkeys_dinsert {α β : Type} [DecidableEq α] (d : List (α × β)) (k : α) (v : β) :
    dkeys (dinsert d k v) = if k ∈ dkeys d then dkeys d else dkeys d ++ [k] := by
  by_cases hk : k ∈ dkeys d
  · rw [if_pos hk]
    simp only [dinsert, if_pos ((any_key_iff d k).2 hk)]
    simp only [dkeys, List.map_map]
    apply List.map_congr_left
    intro p _
    by_cases hp : p.1 = k
    · simp [hp]
    · simp [hp]
  · rw [if_neg hk]
    simp only [dinsert, if_neg (fun h => hk ((any_key_iff d k).1 h))]
    simp [dkeys]

theorem dkeys_dinsert_mem {α β : Type} [DecidableEq α] (d : List (α × β)) (k : α) (v : β)
    (h : k ∈ dkeys d) : dkeys (dinsert d k v) = dkeys d := by
  rw [dkeys_dinsert, if_pos h]

theorem dinsert_eq_append {α β : Type} [DecidableEq α] (d : List (α × β)) (k : α) (v : β)
    (h : k ∉ dkeys d) : dinsert d k v = d ++ [(k, v)] := by
  simp only [dinsert, if_neg (fun ha => h ((any_key_iff d k).1 ha))]

-- ### Deduplication lemmas

theorem mem_dedupFirstAux {α : Type} [DecidableEq α] (l : List α) (seen : List α) (x : α) :
    x ∈ dedupFirstAux seen l ↔ x ∈ l ∧ x ∉ seen := by
  induction l generalizing seen with
  | nil => simp [dedupFirstAux]
  | cons a as ih =>
    by_cases ha : a ∈ seen
    · rw [dedupFirstAux, if_pos ha, ih]
      constructor
      · rintro ⟨h1, h2⟩; exact ⟨.tail _ h1, h2⟩
      · rintro ⟨h1, h2⟩
        rcases List.mem_cons.1 h1 with rfl | h1
        · exact absurd ha h2
        · exact ⟨h1, h2⟩
    · rw [dedupFirstAux, if_neg ha]
      simp only [List.mem_cons, ih, List.mem_cons, not_or]
      constructor
      · rintro (rfl | ⟨h1, h2, h3⟩)
        · exact ⟨Or.inl rfl, ha⟩
        · exact ⟨Or.inr h1, h3⟩
      · rintro ⟨rfl | h1, h2⟩
        · exact Or.inl rfl
        · by_cases hxa : x = a
          · exact Or.inl hxa
          · exact Or.inr ⟨h1, hxa, h2⟩

theorem mem_dedupFirst {α : Type} [DecidableEq α] (l : List α) (x : α) :
    x ∈ dedupFirst l ↔ x ∈ l := by
  simp [dedupFirst, mem_dedupFirstAux]

theorem nodup_dedupFirstAux {α : Type} [DecidableEq α] (l : List α) (seen : List α) :
    (dedupFirstAux seen l).Nodup := by
  induction l generalizing seen with
  | nil => simp [dedupFirstAux]
  | cons a as ih =>
    by_cases ha : a ∈ seen
    · rw [dedupFirstAux, if_pos ha]; exact ih seen
    · rw [dedupFirstAux, if_neg ha]
      refine List.nodup_cons.2 ⟨fun hmem => ?_, ih _⟩
      exact ((mem_dedupFirstAux _ _ _).1 hmem).2 (List.mem_cons_self _ _)

theorem nodup_dedupFirst {α : Type} [DecidableEq α] (l : List α) : (dedupFirst l).Nodup :=
  nodup_dedupFirstAux l []

theorem dedupFirstAux_eq_self {α : Type} [DecidableEq α] (l : List α) (seen : List α)
    (hnd : l.Nodup) (hdisj : ∀ x ∈ l, x ∉ seen) : dedupFirstAux seen l = l := by
  induction l generalizing seen with
  | nil => rfl
  | cons a as ih =>
    rw [dedupFirstAux, if_neg (hdisj a (List.mem_cons_self _ _))]
    rw [ih _ (List.nodup_cons.1 hnd).2]
    intro x hx
    simp only [List.mem_cons, not_or]
    exact ⟨fun hxa => (List.nodup_cons.1 hnd).1 (hxa ▸ hx), hdisj x (.tail _ hx)⟩

theorem dedupFirst_eq_self {α : Type} [DecidableEq α] (l : List α) (hnd : l.Nodup) :
    dedupFirst l = l :=
  dedupFirstAux_eq_self l [] hnd (by simp)

theorem dedupFirst_ne_nil {α : Type} [DecidableEq α] (l : List α) (h : l ≠ []) :
    dedupFirst l ≠ [] := by
  match l with
  | [] => exact absurd rfl h
  | a :: as =>
    rw [dedupFirst, dedupFirstAux, if_neg (List.not_mem_nil a)]
    exact List.cons_ne_nil _ _

theorem dkeys_append {α β : Type} (d₁ d₂ : List (α × β)) :
    dkeys (d₁ ++ d₂) = dkeys d₁ ++ dkeys d₂ := by
  simp [dkeys]

theorem foldl_dinsert_eq {α β : Type} [DecidableEq α] (ks : List α) (f : α → β)
    (acc : List (α × β)) (hnd : ks.Nodup) (hdisj : ∀ k ∈ ks, k ∉ dkeys acc) :
    ks.foldl (fun d k => dinsert d k (f k)) acc = acc ++ ks.map (fun k => (k, f k)) := by
  induction ks generalizing acc with
  | nil => simp
  | cons k ks ih =>
    rw [List.foldl_cons, dinsert_eq_append _ _ _ (hdisj k (List.mem_cons_self _ _))]
    rw [ih (acc ++ [(k, f k)]) (List.nodup_cons.1 hnd).2]
    · simp
    · intro x hx
      rw [dkeys_append]
      simp only [List.mem_append, not_or]
      refine ⟨hdisj x (.tail _ hx), ?_⟩
      simp only [dkeys, List.map_cons, List.map_nil, List.mem_singleton]
      exact fun hxk => (List.nodup_cons.1 hnd).1 (hxk ▸ hx)

theorem dget?_map_pairs {α β : Type} [DecidableEq α] (ks : List α) (f : α → β) (k : α) :
    dget? (ks.map (fun x => (x, f x))) k = if k ∈ ks then some (f k) else none := by
  induction ks with
  | nil => simp [dget?_nil]
  | cons a as ih =>
    rw [List.map_cons, dget?_cons]
    by_cases ha : a = k
    · subst ha; simp
    · simp [ha, ih, Ne.symm ha]

-- ### Matrix-validator lemmas

theorem vmHourMap_eq (bhs : Cells) (hours : List Val) (n : Val) (hnd : hours.Nodup) :
    vmHourMap bhs hours n = hours.map (fun h =>
      (h, if isGoodStatus ((dget? ((dget? bhs n).getD []) h).getD (.str "No Run")) then
            (dget? ((dget? bhs n).getD []) h).getD (.str "No Run")
          else .str "No Run")) := by
  unfold vmHourMap
  exact foldl_dinsert_eq hours _ [] hnd (by simp [dkeys_nil])

theorem vmLoop_char (bhs : Cells) (hours : List Val) (names : List Val) (acc : Cells × List Val)
    (hnd : (acc.2 ++ names).Nodup) (hkeys : dkeys acc.1 = acc.2) :
    vmLoop bhs hours acc names =
      (acc.1 ++ (names.filter (fun n => isGoodName n)).map (fun n => (n, vmHourMap bhs hours n)),
       acc.2 ++ names.filter (fun n => isGoodName n)) := by
  induction names generalizing acc with
  | nil => simp [vmLoop]
  | cons n ns ih =>
    have hnmem : n ∉ acc.2 := by
      intro hmem
      rcases List.nodup_append.1 hnd with ⟨_, _, hdisj⟩
      exact hdisj hmem (List.mem_cons_self _ _)
    by_cases hg : isGoodName n
    · rw [vmLoop, if_pos hg]
      have heq := dinsert_eq_append acc.1 n (vmHourMap bhs hours n) (hkeys ▸ hnmem)
      rw [heq]
      have hnd' : ((acc.2 ++ [n]) ++ ns).Nodup := by
        rwa [← List.append_cons]
      have hkeys' : dkeys (acc.1 ++ [(n, vmHourMap bhs hours n)]) = acc.2 ++ [n] := by
        rw [dkeys_append, hkeys]; rfl
      have := ih (acc.1 ++ [(n, vmHourMap bhs hours n)], acc.2 ++ [n]) hnd' hkeys'
      rw [this]
      rw [List.filter_cons_of_pos hg]
      simp
    · rw [vmLoop, if_neg hg]
      have hnd2 : (acc.2 ++ ns).Nodup := by
        rcases List.nodup_append.1 hnd with ⟨h1, h2, h3⟩
        exact List.nodup_append.2 ⟨h1, (List.nodup_cons.1 h2).2, fun a ha hb => h3 ha (.tail _ hb)⟩
      rw [ih acc hnd2 hkeys]
      rw [List.filter_cons_of_neg hg]

theorem range24_nodup : range24.Nodup := by decide

theorem range24_filter_valid : range24.filter isValidHourVal = range24 := by decide

theorem range24_ne_nil : range24 ≠ [] := by decide

theorem validate_matrix_char (bhs : Cells) (names : List Val)
    (hne : names ≠ []) (hnd : names.Nodup) :
    validate_matrix_data bhs names range24 =
      if (names.filter (fun n => isGoodName n)).isEmpty then
        (false, "No valid display names", ([], [], range24))
      else
        (true, "Validation successful",
         ((names.filter (fun n => isGoodName n)).map (fun n => (n, vmHourMap bhs range24 n)),
          names.filter (fun n => isGoodName n), range24)) := by
  have h0 : names.isEmpty = false := by
    cases names with
    | nil => exact absurd rfl hne
    | cons a l => rfl
  have hr : range24.isEmpty = false := by decide
  unfold validate_matrix_data
  simp only [h0, hr, Bool.false_eq_true, false_and, if_false, ite_false,
    range24_filter_valid, eq_self_iff_true, if_true, ite_true]
  rw [vmLoop_char bhs range24 names ([], []) (by simpa using hnd) rfl]
  simp

theorem validate_matrix_thd (bhs : Cells) (names : List Val) :
    (validate_matrix_data bhs names range24).2.2.2.2 = range24 := by
  have hr : range24.isEmpty = false := by decide
  unfold validate_matrix_data
  simp only [hr, Bool.false_eq_true, if_false, ite_false, range24_filter_valid,
    eq_self_iff_true, if_true, ite_true]
  split <;> first
    | rfl
    | (split <;> first
        | rfl
        | (split <;> rfl))

-- ### Sorting lemmas

theorem mem_insSorted {α : Type} (lt : α → α → Bool) (x : α) (l : List α) (y : α) :
    y ∈ insSorted lt x l ↔ y = x ∨ y ∈ l := by
  induction l with
  | nil => simp [insSorted]
  | cons a as ih =>
    rw [insSorted]
    by_cases hlt : lt x a
    · simp [hlt]
    · simp only [hlt, if_false, Bool.false_eq_true, List.mem_cons, ih]
      tauto

theorem mem_sortBy {α : Type} (lt : α → α → Bool) (l : List α) (y : α) :
    y ∈ sortBy lt l ↔ y ∈ l := by
  induction l with
  | nil => simp [sortBy]
  | cons a as ih =>
    rw [sortBy, List.foldr_cons, mem_insSorted]
    rw [sortBy] at ih
    simp [ih]

theorem nodup_insSorted {α : Type} (lt : α → α → Bool) (x : α) (l : List α)
    (hx : x ∉ l) (hnd : l.Nodup) : (insSorted lt x l).Nodup := by
  induction l with
  | nil => simp [insSorted]
  | cons a as ih =>
    rw [insSorted]
    by_cases hlt : lt x a
    · simp only [hlt, if_true, ite_true]
      exact List.nodup_cons.2 ⟨hx, hnd⟩
    · simp only [hlt, if_false, Bool.false_eq_true, ite_false]
      refine List.nodup_cons.2 ⟨?_, ih (fun h => hx (.tail _ h)) (List.nodup_cons.1 hnd).2⟩
      rw [mem_insSorted]
      rintro (rfl | h)
      · exact hx (List.mem_cons_self _ _)
      · exact (List.nodup_cons.1 hnd).1 h

theorem nodup_sortBy {α : Type} (lt : α → α → Bool) (l : List α) (hnd : l.Nodup) :
    (sortBy lt l).Nodup := by
  induction l with
  | nil => simp [sortBy]
  | cons a as ih =>
    rw [sortBy, List.foldr_cons]
    refine nodup_insSorted lt a _ ?_ (ih (List.nodup_cons.1 hnd).2)
    rw [show List.foldr (insSorted lt) [] as = sortBy lt as from rfl, mem_sortBy]
    exact (List.nodup_cons.1 hnd).1

theorem sortBy_ne_nil {α : Type} (lt : α → α → Bool) (l : List α) (h : l ≠ []) :
    sortBy lt l ≠ [] := by
  match l with
  | [] => exact absurd rfl h
  | a :: as =>
    intro hc
    have : a ∈ sortBy lt (a :: as) := (mem_sortBy lt _ a).2 (List.mem_cons_self _ _)
    rw [hc] at this
    exact List.not_mem_nil a this

-- ### np.unique lemmas

theorem npUnique_of_str (vs : List Val) (h : ∀ v ∈ vs, v.isStr = true) :
    ∃ us, npUnique vs = some us ∧ (∀ u, u ∈ us ↔ u ∈ vs) ∧ us.Nodup ∧
      (vs ≠ [] → us ≠ []) := by
  unfold npUnique
  by_cases hlen : (dedupFirst vs).length ≤ 1
  · refine ⟨dedupFirst vs, by simp [hlen], fun u => mem_dedupFirst vs u, nodup_dedupFirst vs,
      fun hne => dedupFirst_ne_nil vs hne⟩
  · have hall : (dedupFirst vs).all Val.isStr = true := by
      rw [List.all_eq_true]
      exact fun v hv => h v ((mem_dedupFirst vs v).1 hv)
    refine ⟨sortBy strLtVal (dedupFirst vs), by simp [hlen, hall], ?_, ?_, ?_⟩
    · intro u
      rw [mem_sortBy, mem_dedupFirst]
    · exact nodup_sortBy _ _ (nodup_dedupFirst vs)
    · intro hne
      exact sortBy_ne_nil _ _ (dedupFirst_ne_nil vs hne)

-- ### Fill-loop lemmas

theorem fillStep_dkeys (rows : List Row) (ks : List (Val × Val)) (bhs : Cells) :
    dkeys (fillStep rows bhs ks) = dkeys bhs := by
  induction ks generalizing bhs with
  | nil => rfl
  | cons k ks ih =>
    rw [fillStep]
    by_cases hk : (dget? bhs k.1).isSome = true
    · rw [if_pos hk]
      split
      · rename_i v i heq
        by_cases hi : 0 ≤ i ∧ i ≤ 23
        · rw [if_pos hi]
          split
          · rw [ih]
            exact dkeys_dinsert_mem _ _ _ ((dget?_isSome_iff _ _).1 hk)
          · rfl
        · rw [if_neg hi]
          exact ih bhs
      · rfl
    · rw [if_neg hk]
      exact ih bhs

theorem fillGroups_dkeys (rows : List Row) (bhs : Cells) :
    dkeys (fillGroups rows bhs) = dkeys bhs := by
  simp only [fillGroups]
  split
  · exact fillStep_dkeys _ _ _
  · split
    · exact fillStep_dkeys _ _ _
    · rfl

theorem fillStep_lookup (rows : List Row) (ks : List (Val × Val)) (bhs : Cells)
    (hwf : ∀ k ∈ ks, ∃ i : Int, k.2 = Val.int i ∧ 0 ≤ i ∧ i ≤ 23)
    (hstat : ∀ k ∈ ks, ∀ v ∈ bucketStatuses rows k, v.isStr = true)
    (hnd : ks.Nodup) (n h : Val) :
    cellGet (fillStep rows bhs ks) n h =
      if (n, h) ∈ ks ∧ n ∈ dkeys bhs then
        some (pyMaxBy STATUS_PRIORITY ((npUnique (bucketStatuses rows (n, h))).getD []))
      else cellGet bhs n h := by
  induction ks generalizing bhs with
  | nil => simp [fillStep]
  | cons k ks ih =>
    obtain ⟨k1, k2⟩ := k
    obtain ⟨i, hk2, hi⟩ := hwf (k1, k2) (List.mem_cons_self _ _)
    simp only at hk2
    subst hk2
    simp only [fillStep]
    by_cases hkmem : (dget? bhs k1).isSome = true
    · rw [if_pos hkmem, if_pos hi]
      obtain ⟨us, hus, hus_mem, hus_nd, hus_ne⟩ :=
        npUnique_of_str (bucketStatuses rows (k1, Val.int i)) (hstat _ (List.mem_cons_self _ _))
      rw [hus]
      rw [ih _ (fun k hk => hwf k (.tail _ hk)) (fun k hk => hstat k (.tail _ hk))
        (List.nodup_cons.1 hnd).2]
      have hk1keys : k1 ∈ dkeys bhs := (dget?_isSome_iff _ _).1 hkmem
      obtain ⟨m, hm⟩ := Option.isSome_iff_exists.1 hkmem
      rw [dkeys_dinsert_mem _ _ _ hk1keys]
      by_cases hkey : (n, h) = (k1, Val.int i)
      · obtain ⟨rfl, rfl⟩ := Prod.mk.inj hkey
        rw [if_neg (fun hc => (List.nodup_cons.1 hnd).1 hc.1)]
        rw [if_pos ⟨List.mem_cons_self _ _, hk1keys⟩]
        simp [cellGet, dget?_dinsert_self, hus]
      · by_cases hc : (n, h) ∈ ks ∧ n ∈ dkeys bhs
        · rw [if_pos hc, if_pos ⟨.tail _ hc.1, hc.2⟩]
        · rw [if_neg hc]
          rw [if_neg (by
            rintro ⟨hmem, hkeys⟩
            rcases List.mem_cons.1 hmem with hc2 | hc2
            · exact hkey hc2
            · exact hc ⟨hc2, hkeys⟩)]
          by_cases hn1 : n = k1
          · subst hn1
            have hh2 : h ≠ Val.int i := fun hc2 => hkey (by rw [hc2])
            simp [cellGet, dget?_dinsert_self, dget?_dinsert_ne _ _ _ _ hh2, hm]
          · simp [cellGet, dget?_dinsert_ne _ _ _ _ hn1]
    · rw [if_neg hkmem]
      rw [ih _ (fun k hk => hwf k (.tail _ hk)) (fun k hk => hstat k (.tail _ hk))
        (List.nodup_cons.1 hnd).2]
      have hnkeys : k1 ∉ dkeys bhs := fun hc => hkmem ((dget?_isSome_iff _ _).2 hc)
      by_cases hc : (n, h) ∈ ks ∧ n ∈ dkeys bhs
      · rw [if_pos hc, if_pos ⟨.tail _ hc.1, hc.2⟩]
      · rw [if_neg hc]
        rw [if_neg (by
          rintro ⟨hmem, hkeys⟩
          rcases List.mem_cons.1 hmem with hc2 | hc2
          · have : n = k1 := congrArg Prod.fst hc2
            exact hnkeys (this ▸ hkeys)
          · exact hc ⟨hc2, hkeys⟩)]

theorem bucketStatuses_isStr (rows : List Row) (hwf : ∀ r ∈ rows, WFRow r) (k : Val × Val) :
    ∀ v ∈ bucketStatuses rows k, v.isStr = true := by
  intro v hv
  unfold bucketStatuses at hv
  rw [List.mem_map] at hv
  obtain ⟨r, hr, rfl⟩ := hv
  obtain ⟨_, _, s, hs, _⟩ := hwf r (List.mem_filter.1 hr).1
  rw [hs]
  rfl

theorem fillGroups_lookup (rows : List Row) (bhs : Cells)
    (hwf : ∀ r ∈ rows, WFRow r) (n : Val) (h : Val) :
    cellGet (fillGroups rows bhs) n h =
      if (n, h) ∈ rows.map groupKeyOf ∧ n ∈ dkeys bhs then
        some (pyMaxBy STATUS_PRIORITY ((npUnique (bucketStatuses rows (n, h))).getD []))
      else cellGet bhs n h := by
  have hgrows : rows.filter
      (fun r => ¬ (rget r "display_name").isNa && ¬ (rget r "hour").isNa) = rows := by
    apply List.filter_eq_self.2
    intro r hr
    obtain ⟨⟨s, hs, _⟩, ⟨i, hih, _⟩, _⟩ := hwf r hr
    simp [Val.isNa, hs, hih]
  have hwf_keys : ∀ k ∈ dedupFirst (rows.map groupKeyOf),
      ∃ i : Int, k.2 = Val.int i ∧ 0 ≤ i ∧ i ≤ 23 := by
    intro k hk
    rw [mem_dedupFirst, List.mem_map] at hk
    obtain ⟨r, hr, rfl⟩ := hk
    obtain ⟨_, ⟨i, hih, hi0, hi23⟩, _⟩ := hwf r hr
    exact ⟨i, by simpa [groupKeyOf] using hih, hi0, hi23⟩
  have hstat_keys : ∀ k ∈ dedupFirst (rows.map groupKeyOf),
      ∀ v ∈ bucketStatuses rows k, v.isStr = true :=
    fun k _ => bucketStatuses_isStr rows hwf k
  simp only [fillGroups, hgrows]
  by_cases hlen : (dedupFirst (rows.map groupKeyOf)).length ≤ 1
  · rw [if_pos hlen]
    rw [fillStep_lookup rows _ bhs hwf_keys hstat_keys (nodup_dedupFirst _) n h]
    exact if_congr (and_congr_left' (mem_dedupFirst _ _)) rfl rfl
  · rw [if_neg hlen]
    have hall : (dedupFirst (rows.map groupKeyOf)).all
        (fun k => k.1.isStr && k.2.isInt) = true := by
      rw [List.all_eq_true]
      intro k hk
      have hk' := hk
      rw [mem_dedupFirst, List.mem_map] at hk'
      obtain ⟨r, hr, rfl⟩ := hk'
      obtain ⟨⟨s, hs, _⟩, ⟨i, hih, _⟩, _⟩ := hwf r hr
      simp [groupKeyOf, hs, hih, Val.isStr, Val.isInt]
    rw [if_pos hall]
    rw [fillStep_lookup rows _ bhs
      (fun k hk => hwf_keys k ((mem_sortBy _ _ _).1 hk))
      (fun k hk => hstat_keys k ((mem_sortBy _ _ _).1 hk))
      (nodup_sortBy _ _ (nodup_dedupFirst _)) n h]
    exact if_congr (and_congr_left' ((mem_sortBy _ _ _).trans (mem_dedupFirst _ _))) rfl rfl

-- ### Python max lemmas

theorem foldl_pymax_spec (f : Val → Nat) (xs : List Val) (a : Val) :
    (xs.foldl (fun acc y => if f y > f acc then y else acc) a = a ∨
      xs.foldl (fun acc y => if f y > f acc then y else acc) a ∈ xs) ∧
    f a ≤ f (xs.foldl (fun acc y => if f y > f acc then y else acc) a) ∧
    ∀ y ∈ xs, f y ≤ f (xs.foldl (fun acc y => if f y > f acc then y else acc) a) := by
  induction xs generalizing a with
  | nil => exact ⟨Or.inl rfl, le_refl _, by simp⟩
  | cons y ys ih =>
    rw [List.foldl_cons]
    obtain ⟨hmem, hge, hmax⟩ := ih (if f y > f a then y else a)
    have hstep : f a ≤ f (if f y > f a then y else a) ∧ f y ≤ f (if f y > f a then y else a) := by
      by_cases hgt : f y > f a
      · rw [if_pos hgt]; exact ⟨le_of_lt hgt, le_refl _⟩
      · rw [if_neg hgt]; exact ⟨le_refl _, le_of_not_lt hgt⟩
    refine ⟨?_, le_trans hstep.1 hge, ?_⟩
    · rcases hmem with heq | hin
      · rw [heq]
        by_cases hgt : f y > f a
        · rw [if_pos hgt]; exact Or.inr (List.mem_cons_self _ _)
        · rw [if_neg hgt]; exact Or.inl rfl
      · exact Or.inr (.tail _ hin)
    · intro z hz
      rcases List.mem_cons.1 hz with rfl | hz
      · exact le_trans hstep.2 hge
      · exact hmax z hz

theorem pyMaxBy_spec (f : Val → Nat) (l : List Val) (hne : l ≠ []) :
    pyMaxBy f l ∈ l ∧ ∀ y ∈ l, f y ≤ f (pyMaxBy f l) := by
  match l with
  | [] => exact absurd rfl hne
  | x :: xs =>
    rw [pyMaxBy]
    obtain ⟨hmem, hge, hmax⟩ := foldl_pymax_spec f xs x
    refine ⟨?_, ?_⟩
    · rcases hmem with heq | hin
      · rw [heq]; exact List.mem_cons_self _ _
      · exact .tail _ hin
    · intro y hy
      rcases List.mem_cons.1 hy with rfl | hy
      · exact hge
      · exact hmax y hy

-- ### Column-restriction lemmas

theorem rget_restrictRow (r : Row) (cs : List String) (c : String) (hc : c ∈ cs) :
    rget (restrictRow r cs) c = rget r c := by
  unfold rget restrictRow
  rw [dget?_map_pairs, if_pos hc]
  rfl

theorem WFRow_restrict (r : Row) (hwf : WFRow r) :
    WFRow (restrictRow r MATRIX_COLUMNS) := by
  obtain ⟨⟨s, hs, hs'⟩, ⟨i, hih, hi⟩, ⟨t, ht, ht'⟩⟩ := hwf
  refine ⟨⟨s, ?_, hs'⟩, ⟨i, ?_, hi⟩, ⟨t, ?_, ht'⟩⟩
  · rw [rget_restrictRow r MATRIX_COLUMNS "display_name" (by simp [MATRIX_COLUMNS])]; exact hs
  · rw [rget_restrictRow r MATRIX_COLUMNS "hour" (by simp [MATRIX_COLUMNS])]; exact hih
  · rw [rget_restrictRow r MATRIX_COLUMNS "taskstatus" (by simp [MATRIX_COLUMNS])]; exact ht

theorem groupKeyOf_restrict (r : Row) :
    groupKeyOf (restrictRow r MATRIX_COLUMNS) = groupKeyOf r := by
  unfold groupKeyOf
  rw [rget_restrictRow r MATRIX_COLUMNS "display_name" (by simp [MATRIX_COLUMNS]),
    rget_restrictRow r MATRIX_COLUMNS "hour" (by simp [MATRIX_COLUMNS])]

theorem bucketStatuses_map_restrict (rows : List Row) (k : Val × Val) :
    bucketStatuses (rows.map (fun r => restrictRow r MATRIX_COLUMNS)) k =
      bucketStatuses rows k := by
  unfold bucketStatuses
  rw [List.filter_map, List.map_map]
  have hfil : List.filter ((fun r => decide (groupKeyOf r = k)) ∘ fun r =>
      restrictRow r MATRIX_COLUMNS) rows = List.filter (fun r => decide (groupKeyOf r = k)) rows := by
    apply List.filter_congr
    intro r _
    simp only [Function.comp_apply, groupKeyOf_restrict]
  rw [hfil]
  apply List.map_congr_left
  intro r _
  simp only [Function.comp_apply]
  exact rget_restrictRow r MATRIX_COLUMNS "taskstatus" (by simp [MATRIX_COLUMNS])

-- ### Normalized-validator success lemmas

theorem setColWith_cols_mono (df : DF) (c0 : String) (f : Row → Val) (c : String)
    (hc : c ∈ df.cols) : c ∈ (df.setColWith c0 f).cols := by
  unfold DF.setColWith
  simp only
  split
  · exact hc
  · exact List.mem_append.2 (Or.inl hc)

theorem vpRequiredLoop_cols_mono (df : DF) (c : String) (hc : c ∈ df.cols) :
    c ∈ (vpRequiredLoop df).cols := by
  unfold vpRequiredLoop
  generalize ["owner", "automation_project", "flowname", "taskstatus", "datetimestarted"] = cs
  induction cs generalizing df with
  | nil => exact hc
  | cons a as ih =>
    rw [List.foldl_cons]
    apply ih
    split
    · exact hc
    · split
      · exact setColWith_cols_mono _ _ _ _ hc
      · exact setColWith_cols_mono _ _ _ _ hc

theorem vpBody_ok (df : DF) (hhour : "hour" ∈ df.cols) (hdisp : "display_name" ∈ df.cols) :
    ∃ v, vpBody df = Except.ok v := by
  unfold vpBody
  have h1 : ¬ ("hour" ∉ (vpRequiredLoop df).cols ∧ "datetimestarted" ∈ (vpRequiredLoop df).cols) :=
    fun hcon => hcon.1 (vpRequiredLoop_cols_mono df "hour" hhour)
  have h2 : ¬ ("display_name" ∉ (vpRequiredLoop df).cols) :=
    fun hcon => hcon (vpRequiredLoop_cols_mono df "display_name" hdisp)
  simp only [h1, h2, if_false, ite_false, pure_bind]
  exact ⟨_, rfl⟩

theorem validate_processed_some (df : DF) :
    validate_processed_data (some df) =
      if df.rows.isEmpty = true then (false, "No processed data available", none)
      else
        match vpBody df with
        | Except.ok v => (true, "Validation successful", some v)
        | Except.error e => (false, "Validation error: " ++ e, none) := rfl

theorem validate_processed_fst (df : DF) (hne : ¬ df.rows.isEmpty = true)
    (hhour : "hour" ∈ df.cols) (hdisp : "display_name" ∈ df.cols) :
    (validate_processed_data (some df)).1 = true := by
  rw [validate_processed_some, if_neg hne]
  obtain ⟨v, hv⟩ := vpBody_ok df hhour hdisp
  rw [hv]

theorem create_matrix_reduce (cols : List String) (rows : List Row) (m : Nat)
    (hsub : ∀ c ∈ MATRIX_COLUMNS, c ∈ cols)
    (hwf : ∀ r ∈ rows, WFRow r)
    (hne : rows ≠ []) :
    create_hourly_matrix (some ⟨cols, rows⟩) "All Projects" "All Statuses" m =
      if (dedupFirst (rows.map (fun r => rget r "display_name"))).length > m then
        ([], [], range24)
      else
        ((dedupFirst (rows.map (fun r => rget r "display_name"))).map
            (fun nm => (nm, vmHourMap
              (fillGroups (rows.map (fun r => restrictRow r MATRIX_COLUMNS))
                ((dedupFirst (rows.map (fun r => rget r "display_name"))).map
                  (fun nm2 => (nm2, range24.map (fun hh => (hh, Val.str "No Run"))))))
              range24 nm)),
         dedupFirst (rows.map (fun r => rget r "display_name")), range24) := by
  have hrows_ne : ¬ ((⟨cols, rows⟩ : DF).rows.isEmpty = true) := by
    simp only [List.isEmpty_iff]
    exact hne
  have hhour : "hour" ∈ cols := hsub "hour" (by simp [MATRIX_COLUMNS])
  have hdisp : "display_name" ∈ cols := hsub "display_name" (by simp [MATRIX_COLUMNS])
  simp only [create_hourly_matrix]
  rw [if_neg hrows_ne]
  rw [if_pos (validate_processed_fst ⟨cols, rows⟩ hrows_ne hhour hdisp)]
  dsimp only []
  rw [if_pos (List.all_eq_true.2 (fun c hc => decide_eq_true (hsub c hc)))]
  rw [List.filter_eq_self.2 (fun r _ => by simp)]
  rw [if_neg (by
    simp only [List.isEmpty_iff, List.map_eq_nil_iff]
    exact hne)]
  rw [List.filter_eq_self.2 (fun r' hr' => by
    rw [List.mem_map] at hr'
    obtain ⟨r, hr, rfl⟩ := hr'
    obtain ⟨⟨s, hs, hs'⟩, _, _⟩ := hwf r hr
    rw [rget_restrictRow r MATRIX_COLUMNS "display_name" (by simp [MATRIX_COLUMNS])]
    simp [Val.isNa, hs, hs'])]
  rw [if_neg (by
    simp only [List.isEmpty_iff, List.map_eq_nil_iff]
    exact hne)]
  have hnames_map : (rows.map (fun r => restrictRow r MATRIX_COLUMNS)).map
      (fun r => rget r "display_name") = rows.map (fun r => rget r "display_name") := by
    rw [List.map_map]
    apply List.map_congr_left
    intro r _
    simp only [Function.comp_apply]
    exact rget_restrictRow r MATRIX_COLUMNS "display_name" (by simp [MATRIX_COLUMNS])
  rw [hnames_map]
  have hnames_ne : dedupFirst (rows.map (fun r => rget r "display_name")) ≠ [] :=
    dedupFirst_ne_nil _ (by
      intro hc
      exact hne (List.map_eq_nil_iff.1 hc))
  have hnames_nd : (dedupFirst (rows.map (fun r => rget r "display_name"))).Nodup :=
    nodup_dedupFirst _
  have hnames_good : ∀ nm ∈ dedupFirst (rows.map (fun r => rget r "display_name")),
      isGoodName nm = true := by
    intro nm hnm
    rw [mem_dedupFirst, List.mem_map] at hnm
    obtain ⟨r, hr, rfl⟩ := hnm
    obtain ⟨⟨s, hs, hs'⟩, _, _⟩ := hwf r hr
    rw [hs]
    simpa [isGoodName] using hs'
  by_cases hlen : (dedupFirst (rows.map (fun r => rget r "display_name"))).length > m
  · rw [if_pos hlen, if_pos hlen]
  · rw [if_neg hlen, if_neg hlen]
    have hm0eq : range24.foldl (fun m h => dinsert m h (Val.str "No Run")) [] =
        range24.map (fun hh => (hh, Val.str "No Run")) :=
      foldl_dinsert_eq range24 (fun _ => Val.str "No Run") [] range24_nodup (by simp [dkeys_nil])
    simp only [hm0eq]
    rw [foldl_dinsert_eq _ (fun _ => range24.map (fun hh => (hh, Val.str "No Run"))) []
      hnames_nd (by simp [dkeys_nil])]
    rw [List.nil_append]
    rw [if_neg (by
      simp only [List.isEmpty_iff]
      rintro ⟨hc, -⟩
      exact hnames_ne hc)]
    rw [validate_matrix_char _ _ hnames_ne hnames_nd]
    rw [List.filter_eq_self.2 (fun nm hnm => hnames_good nm hnm)]
    rw [if_neg (by
      simp only [List.isEmpty_iff]
      exact hnames_ne)]

theorem dkeys_map_pairs {α β : Type} (ks : List α) (f : α → β) :
    dkeys (ks.map (fun k => (k, f k))) = ks := by
  induction ks with
  | nil => rfl
  | cons a as ih => rw [List.map_cons, dkeys_cons, ih]

theorem int_mem_range24 (i : Int) (h0 : 0 ≤ i) (h23 : i ≤ 23) : Val.int i ∈ range24 := by
  have hlt : i.toNat < 24 := by omega
  have h2 : Val.int (Int.ofNat i.toNat) ∈ range24 :=
    List.mem_map_of_mem _ (List.mem_range.2 hlt)
  rwa [show Int.ofNat i.toNat = i from Int.toNat_of_nonneg h0] at h2

theorem bucketStatuses_ne_nil_iff (rows : List Row) (k : Val × Val) :
    bucketStatuses rows k ≠ [] ↔ k ∈ rows.map groupKeyOf := by
  unfold bucketStatuses
  simp only [Ne, List.map_eq_nil_iff, List.filter_eq_nil_iff, List.mem_map]
  constructor
  · intro hno
    by_contra hc
    push_neg at hc
    exact hno (fun r hr => by
      intro hdec
      exact hc r hr (of_decide_eq_true hdec))
  · rintro ⟨r, hr, rfl⟩ hall
    exact hall r hr (decide_eq_true rfl)

theorem bucketStatuses_good (rows : List Row) (hwf : ∀ r ∈ rows, WFRow r) (k : Val × Val) :
    ∀ v ∈ bucketStatuses rows k, ∃ t, v = Val.str t ∧ t ≠ "" := by
  intro v hv
  unfold bucketStatuses at hv
  rw [List.mem_map] at hv
  obtain ⟨r, hr, rfl⟩ := hv
  obtain ⟨_, _, t, ht, ht'⟩ := hwf r (List.mem_filter.1 hr).1
  exact ⟨t, ht, ht'⟩

theorem cellVal_spec (rows : List Row) (hwf : ∀ r ∈ rows, WFRow r) (nm : Val) (h : Val) :
    isGoodStatus (cellVal rows nm h) = true ∧
    (bucketStatuses rows (nm, h) = [] → cellVal rows nm h = .str "No Run") ∧
    (bucketStatuses rows (nm, h) ≠ [] →
      cellVal rows nm h ∈ bucketStatuses rows (nm, h) ∧
      ∀ s ∈ bucketStatuses rows (nm, h),
        STATUS_PRIORITY s ≤ STATUS_PRIORITY (cellVal rows nm h)) := by
  unfold cellVal
  by_cases hb : bucketStatuses rows (nm, h) = []
  · rw [if_pos (by simp [hb])]
    exact ⟨rfl, fun _ => rfl, fun hc => absurd hb hc⟩
  · rw [if_neg (by simp [hb])]
    obtain ⟨us, hus, hus_mem, hus_nd, hus_ne⟩ :=
      npUnique_of_str (bucketStatuses rows (nm, h))
        (bucketStatuses_isStr rows hwf (nm, h))
    rw [hus]
    simp only [Option.getD_some]
    obtain ⟨hmem, hmax⟩ := pyMaxBy_spec STATUS_PRIORITY us (hus_ne hb)
    have hmem_bucket : pyMaxBy STATUS_PRIORITY us ∈ bucketStatuses rows (nm, h) :=
      (hus_mem _).1 hmem
    refine ⟨?_, fun hc => absurd hc hb, fun _ => ⟨hmem_bucket, ?_⟩⟩
    · obtain ⟨t, ht, ht'⟩ := bucketStatuses_good rows hwf (nm, h) _ hmem_bucket
      rw [ht]
      simpa [isGoodStatus] using ht'
    · intro s hs
      exact hmax s ((hus_mem s).2 hs)

theorem create_matrix_cells (cols : List String) (rows : List Row) (m : Nat)
    (hsub : ∀ c ∈ MATRIX_COLUMNS, c ∈ cols) (hwf : ∀ r ∈ rows, WFRow r)
    (hne : rows ≠ [])
    (hlen : ¬ (dedupFirst (rows.map (fun r => rget r "display_name"))).length > m)
    (nm : Val) (hnm : nm ∈ dedupFirst (rows.map (fun r => rget r "display_name")))
    (i : Int) (h0 : 0 ≤ i) (h23 : i ≤ 23) :
    cellGet (create_hourly_matrix (some ⟨cols, rows⟩) "All Projects" "All Statuses" m).1
      nm (.int i) = some (cellVal rows nm (.int i)) := by
  rw [create_matrix_reduce cols rows m hsub hwf hne, if_neg hlen]
  set names := dedupFirst (rows.map (fun r => rget r "display_name")) with hnames
  set rrows := rows.map (fun r => restrictRow r MATRIX_COLUMNS) with hrrows
  set bhs0 : Cells := names.map (fun nm2 => (nm2, range24.map (fun hh => (hh, Val.str "No Run"))))
    with hbhs0
  set bhs := fillGroups rrows bhs0 with hbhs
  have hwfr : ∀ r ∈ rrows, WFRow r := by
    intro r hr
    rw [hrrows, List.mem_map] at hr
    obtain ⟨r0, hr0, rfl⟩ := hr
    exact WFRow_restrict r0 (hwf r0 hr0)
  have hkeys0 : dkeys bhs0 = names := by
    rw [hbhs0]; exact dkeys_map_pairs _ _
  have hkeysb : dkeys bhs = names := by
    rw [hbhs, fillGroups_dkeys, hkeys0]
  have hmap_keys : rrows.map groupKeyOf = rows.map groupKeyOf := by
    rw [hrrows, List.map_map]
    exact List.map_congr_left (fun r _ => by
      simp only [Function.comp_apply]
      exact groupKeyOf_restrict r)
  -- the looked-up entry of the validated structure
  unfold cellGet
  rw [dget?_map_pairs, if_pos hnm]
  rw [Option.some_bind]
  rw [vmHourMap_eq bhs range24 nm range24_nodup]
  rw [dget?_map_pairs, if_pos (int_mem_range24 i h0 h23)]
  -- the inner lookup equals the fill result
  obtain ⟨inner, hinner⟩ := Option.isSome_iff_exists.1
    ((dget?_isSome_iff bhs nm).2 (hkeysb ▸ hnm))
  have hfill := fillGroups_lookup rrows bhs0 hwfr nm (.int i)
  rw [← hbhs, hmap_keys, hkeys0] at hfill
  have hcell0 : cellGet bhs0 nm (.int i) = some (Val.str "No Run") := by
    unfold cellGet
    rw [hbhs0, dget?_map_pairs, if_pos hnm]
    rw [Option.some_bind]
    rw [dget?_map_pairs, if_pos (int_mem_range24 i h0 h23)]
  have hbucket_restrict := bucketStatuses_map_restrict rows (nm, Val.int i)
  rw [← hrrows] at hbucket_restrict
  have hcellb : cellGet bhs nm (.int i) = some (cellVal rows nm (.int i)) := by
    rw [hfill]
    by_cases hmem : (nm, Val.int i) ∈ rows.map groupKeyOf
    · rw [if_pos ⟨hmem, hnm⟩]
      unfold cellVal
      rw [if_neg (by
        simp only [List.isEmpty_iff]
        exact (bucketStatuses_ne_nil_iff rows (nm, Val.int i)).2 hmem)]
      rw [hbucket_restrict]
    · rw [if_neg (fun hc => hmem hc.1), hcell0]
      unfold cellVal
      rw [if_pos (by
        simp only [List.isEmpty_iff]
        by_contra hc
        exact hmem ((bucketStatuses_ne_nil_iff rows (nm, Val.int i)).1 hc))]
  have hinner_cell : dget? inner (Val.int i) = some (cellVal rows nm (Val.int i)) := by
    have : cellGet bhs nm (Val.int i) = dget? inner (Val.int i) := by
      unfold cellGet
      rw [hinner]
      rfl
    rw [← this, hcellb]
  rw [hinner]
  simp only [Option.getD_some]
  rw [hinner_cell]
  simp only [Option.getD_some]
  rw [if_pos (cellVal_spec rows hwf nm (Val.int i)).1]

theorem nodup_dkeys_dinsert {α β : Type} [DecidableEq α] (d : List (α × β)) (k : α) (v : β)
    (h : (dkeys d).Nodup) : (dkeys (dinsert d k v)).Nodup := by
  rw [dkeys_dinsert]
  split
  · exact h
  · rename_i hk
    exact List.nodup_append.2 ⟨h, List.nodup_singleton k,
      fun a ha hb => hk ((List.mem_singleton.1 hb) ▸ ha)⟩

theorem nodup_dkeys_foldl_dinsert {α β : Type} [DecidableEq α] (l : List α) (f : α → β)
    (acc : List (α × β)) (h : (dkeys acc).Nodup) :
    (dkeys (l.foldl (fun d k => dinsert d k (f k)) acc)).Nodup := by
  induction l generalizing acc with
  | nil => exact h
  | cons a as ih =>
    rw [List.foldl_cons]
    exact ih _ (nodup_dkeys_dinsert _ _ _ h)

theorem dkeys_eq_nil_iff {α β : Type} (d : List (α × β)) : dkeys d = [] ↔ d = [] := by
  cases d with
  | nil => simp [dkeys_nil]
  | cons p d => simp [dkeys_cons]

theorem vmHourMap_keys_values (bhs : Cells) (nm : Val) :
    dkeys (vmHourMap bhs range24 nm) = range24 ∧
    ∀ pr ∈ vmHourMap bhs range24 nm, isGoodStatus pr.2 = true := by
  rw [vmHourMap_eq bhs range24 nm range24_nodup]
  refine ⟨dkeys_map_pairs _ _, ?_⟩
  intro pr hpr
  rw [List.mem_map] at hpr
  obtain ⟨hh, _, rfl⟩ := hpr
  simp only
  split
  · assumption
  · rfl

theorem validate_matrix_payload (bhs : Cells) (names : List Val)
    (hnd : names.Nodup) (hbk : (dkeys bhs).Nodup) :
    dkeys (validate_matrix_data bhs names range24).2.2.1 =
      (validate_matrix_data bhs names range24).2.2.2.1 ∧
    (validate_matrix_data bhs names range24).2.2.2.1.Nodup ∧
    (validate_matrix_data bhs names range24).2.2.2.2 = range24 ∧
    ∀ e ∈ (validate_matrix_data bhs names range24).2.2.2.1,
      dget? (validate_matrix_data bhs names range24).2.2.1 e =
        some (vmHourMap bhs range24 e) := by
  by_cases hsub : names.isEmpty = true ∧ ¬ bhs.isEmpty = true
  · -- display names are recovered from the matrix keys
    have hbhs_ne : bhs ≠ [] := by
      intro hc
      rw [hc] at hsub
      exact hsub.2 rfl
    have hkeys_ne : dkeys bhs ≠ [] := fun hc => hbhs_ne ((dkeys_eq_nil_iff bhs).1 hc)
    have heq : validate_matrix_data bhs names range24 =
        validate_matrix_data bhs (dkeys bhs) range24 := by
      unfold validate_matrix_data
      rw [if_pos hsub]
      simp only [ite_self]
    rw [heq, validate_matrix_char bhs (dkeys bhs) hkeys_ne hbk]
    split
    · exact ⟨rfl, List.nodup_nil, rfl, fun e he => absurd he (List.not_mem_nil e)⟩
    · refine ⟨dkeys_map_pairs _ _, List.Nodup.filter _ hbk, rfl, ?_⟩
      intro e he
      simp only
      rw [dget?_map_pairs, if_pos he]
  · by_cases hne : names = []
    · -- an empty batch: both sides of the failure tuple are empty
      have hbhs_nil : bhs = [] := by
        by_contra hc
        exact hsub ⟨by simp [hne], by simpa [List.isEmpty_iff] using hc⟩
      subst hbhs_nil
      subst hne
      exact ⟨rfl, List.nodup_nil, rfl, fun e he => absurd he (List.not_mem_nil e)⟩
    · have heq : validate_matrix_data bhs names range24 =
          if (names.filter (fun n => isGoodName n)).isEmpty then
            (false, "No valid display names", ([], [], range24))
          else
            (true, "Validation successful",
             ((names.filter (fun n => isGoodName n)).map
                (fun n => (n, vmHourMap bhs range24 n)),
              names.filter (fun n => isGoodName n), range24)) :=
        validate_matrix_char bhs names hne hnd
      rw [heq]
      split
      · exact ⟨rfl, List.nodup_nil, rfl, fun e he => absurd he (List.not_mem_nil e)⟩
      · refine ⟨dkeys_map_pairs _ _, List.Nodup.filter _ hnd, rfl, ?_⟩
        intro e he
        simp only
        rw [dget?_map_pairs, if_pos he]

theorem create_hourly_matrix_shape (df? : Option DF) (p s : String) (m : Nat) :
    create_hourly_matrix df? p s m = ([], [], range24) ∨
    ∃ bhs names, names.Nodup ∧ (dkeys bhs).Nodup ∧
      create_hourly_matrix df? p s m = (validate_matrix_data bhs names range24).2.2 := by
  cases df? with
  | none => exact Or.inl rfl
  | some df =>
    simp only [create_hourly_matrix]
    split
    · exact Or.inl rfl
    · split
      · exact Or.inl rfl
      · split
        · split
          · exact Or.inl rfl
          · split
            · exact Or.inl rfl
            · split
              · exact Or.inl rfl
              · right
                refine ⟨_, _, ?_, ?_, rfl⟩
                · split
                  · rw [fillGroups_dkeys]
                    exact nodup_dkeys_foldl_dinsert _ _ [] (by simp [dkeys_nil])
                  · exact nodup_dedupFirst _
                · rw [fillGroups_dkeys]
                  exact nodup_dkeys_foldl_dinsert _ _ [] (by simp [dkeys_nil])
        · exact Or.inl rfl

/-- C7: `create_hourly_matrix` never raises — in the embedding every
exception of the source is caught and the function is total by
construction (the repair and capping blocks, which always raise
internally, degrade to the empty matrix via their handlers) — and the
hours component of the returned triple is `list(range(24))` on every
return path: empty input, validation failure, missing columns, empty
filter result, repair, capping, and the validated path. -/
theorem C7_hours_constant (df? : Option DF) (p s : String) (m : Nat) :
    (create_hourly_matrix df? p s m).2.2 =
      (List.range 24).map (fun h => Val.int (Int.ofNat h)) := by
  rcases create_hourly_matrix_shape df? p s m with h | ⟨bhs, names, _, _, h⟩
  · rw [h]; rfl
  · rw [h]; exact validate_matrix_thd bhs names

/-- C10: on every return path of `create_hourly_matrix`, the keys of
the returned cells mapping equal the returned entities list (as lists,
hence as sets), and the entities list has no duplicates. -/
theorem C10_keys_eq_entities (df? : Option DF) (p s : String) (m : Nat) :
    dkeys (create_hourly_matrix df? p s m).1 = (create_hourly_matrix df? p s m).2.1 ∧
    (create_hourly_matrix df? p s m).2.1.Nodup := by
  rcases create_hourly_matrix_shape df? p s m with h | ⟨bhs, names, hnd, hbk, h⟩
  · rw [h]; exact ⟨rfl, List.nodup_nil⟩
  · rw [h]
    obtain ⟨h1, h2, _, _⟩ := validate_matrix_payload bhs names hnd hbk
    exact ⟨h1, h2⟩

/-- C2 counterexample: a batch whose only status is `"Done"` — a status
the priority table scores at 60 — produces a cell value `"Done"`, which
is not in the closed presentation vocabulary; the claim that every cell
value is drawn from that vocabulary is false. -/
theorem C2_counterexample :
    (create_hourly_matrix (some c2DF) "All Projects" "All Statuses" 300).2.1 =
      [Val.str "A | B | C"] ∧
    cellGet (create_hourly_matrix (some c2DF) "All Projects" "All Statuses" 300).1
      (Val.str "A | B | C") (Val.int 5) = some (Val.str "Done") ∧
    ¬ "Done" ∈ STATUS_VOCABULARY := by
  refine ⟨?_, ?_, ?_⟩ <;> decide

/-- C2 (amended): whenever `create_hourly_matrix` returns a non-empty
entities list, every entity's cell mapping has exactly the keys of the
returned hours list, and every cell value is a non-empty string (not
necessarily from the closed presentation vocabulary). -/
theorem C2_cells_keys_and_strings (df? : Option DF) (p s : String) (m : Nat)
    (hne : (create_hourly_matrix df? p s m).2.1 ≠ [])
    (e : Val) (he : e ∈ (create_hourly_matrix df? p s m).2.1) :
    ∃ hm, dget? (create_hourly_matrix df? p s m).1 e = some hm ∧
      dkeys hm = (create_hourly_matrix df? p s m).2.2 ∧
      ∀ pr ∈ hm, isGoodStatus pr.2 = true := by
  rcases create_hourly_matrix_shape df? p s m with h | ⟨bhs, names, hnd, hbk, h⟩
  · rw [h] at he
    exact absurd he (List.not_mem_nil e)
  · obtain ⟨h1, h2, h3, h4⟩ := validate_matrix_payload bhs names hnd hbk
    rw [h] at he ⊢
    refine ⟨vmHourMap bhs range24 e, h4 e he, ?_, (vmHourMap_keys_values bhs e).2⟩
    rw [h3]
    exact (vmHourMap_keys_values bhs e).1

/-- Witness for C2 (amended) at a concrete one-row batch. -/
theorem C2_cells_keys_and_strings_witness :
    ∃ hm, dget? (create_hourly_matrix (some c2DF) "All Projects" "All Statuses" 300).1
        (Val.str "A | B | C") = some hm ∧
      dkeys hm = (create_hourly_matrix (some c2DF) "All Projects" "All Statuses" 300).2.2 ∧
      ∀ pr ∈ hm, isGoodStatus pr.2 = true :=
  C2_cells_keys_and_strings (some c2DF) "All Projects" "All Statuses" 300
    (by decide) (Val.str "A | B | C") (by decide)

theorem isGoodName_exists {v : Val} (h : isGoodName v = true) :
    ∃ s, v = Val.str s ∧ s ≠ "" := by
  cases v with
  | str s => exact ⟨s, rfl, by simpa [isGoodName] using h⟩
  | int n => simp [isGoodName] at h
  | float q => simp [isGoodName] at h
  | ts d hh => simp [isGoodName] at h
  | nan => simp [isGoodName] at h

theorem isValidHour_exists {v : Val} (h : isValidHourVal v = true) :
    ∃ i : Int, v = Val.int i ∧ 0 ≤ i ∧ i ≤ 23 := by
  cases v with
  | int i =>
    refine ⟨i, rfl, ?_⟩
    simpa [isValidHourVal] using h
  | str s => simp [isValidHourVal] at h
  | float q => simp [isValidHourVal] at h
  | ts d hh => simp [isValidHourVal] at h
  | nan => simp [isValidHourVal] at h

theorem WFRow_of_B {r : Row} (h : WFRowB r = true) : WFRow r := by
  unfold WFRowB at h
  simp only [Bool.and_eq_true] at h
  obtain ⟨⟨h1, h2⟩, h3⟩ := h
  exact ⟨isGoodName_exists h1, isValidHour_exists h2, isGoodName_exists h3⟩

/-- C1: on a well-formed normalized batch (string display names,
integer hours in range, string statuses) with at most `max_rows`
distinct entities and the sentinel filters, the cell that
`create_hourly_matrix` assigns for entity `nm` and hour `i` is the
status of the `(nm, i)` bucket with the highest `STATUS_PRIORITY`
score, and an empty (never grouped) bucket keeps the initialized
`"No Run"`. -/
theorem C1_bucket_priority (cols : List String) (rows : List Row) (m : Nat)
    (hsub : ∀ c ∈ MATRIX_COLUMNS, c ∈ cols) (hwf : ∀ r ∈ rows, WFRow r)
    (hne : rows ≠ [])
    (hlen : ¬ (dedupFirst (rows.map (fun r => rget r "display_name"))).length > m)
    (nm : Val) (hnm : nm ∈ dedupFirst (rows.map (fun r => rget r "display_name")))
    (i : Int) (h0 : 0 ≤ i) (h23 : i ≤ 23) :
    ∃ v, cellGet (create_hourly_matrix (some ⟨cols, rows⟩) "All Projects" "All Statuses" m).1
        nm (Val.int i) = some v ∧
      (bucketStatuses rows (nm, Val.int i) = [] → v = Val.str "No Run") ∧
      (bucketStatuses rows (nm, Val.int i) ≠ [] →
        v ∈ bucketStatuses rows (nm, Val.int i) ∧
        ∀ st ∈ bucketStatuses rows (nm, Val.int i),
          STATUS_PRIORITY st ≤ STATUS_PRIORITY v) := by
  refine ⟨cellVal rows nm (Val.int i),
    create_matrix_cells cols rows m hsub hwf hne hlen nm hnm i h0 h23, ?_, ?_⟩
  · exact (cellVal_spec rows hwf nm (Val.int i)).2.1
  · exact (cellVal_spec rows hwf nm (Val.int i)).2.2

/-- Witness for C1 on the concrete batch `exDF`: at hour 2 the bucket
is {Succeeded, Failed}; the claim instance produces its
maximal-priority member, and concretely the cell holds `"Failed"`
(likewise hour 3 gives `"Running"`, hour 4 `"Skipped"`, hour 7
`"No Run"`). -/
theorem C1_bucket_priority_witness :
    (∃ v, cellGet (create_hourly_matrix (some ⟨MATRIX_COLUMNS, exDF.rows⟩)
        "All Projects" "All Statuses" 300).1 (Val.str "X") (Val.int 2) = some v ∧
      (bucketStatuses exDF.rows (Val.str "X", Val.int 2) = [] → v = Val.str "No Run") ∧
      (bucketStatuses exDF.rows (Val.str "X", Val.int 2) ≠ [] →
        v ∈ bucketStatuses exDF.rows (Val.str "X", Val.int 2) ∧
        ∀ st ∈ bucketStatuses exDF.rows (Val.str "X", Val.int 2),
          STATUS_PRIORITY st ≤ STATUS_PRIORITY v)) ∧
    cellGet (create_hourly_matrix (some exDF) "All Projects" "All Statuses" 300).1
      (Val.str "X") (Val.int 2) = some (Val.str "Failed") ∧
    cellGet (create_hourly_matrix (some exDF) "All Projects" "All Statuses" 300).1
      (Val.str "X") (Val.int 3) = some (Val.str "Running") ∧
    cellGet (create_hourly_matrix (some exDF) "All Projects" "All Statuses" 300).1
      (Val.str "X") (Val.int 4) = some (Val.str "Skipped") ∧
    cellGet (create_hourly_matrix (some exDF) "All Projects" "All Statuses" 300).1
      (Val.str "X") (Val.int 7) = some (Val.str "No Run") := by
  have hall : exDF.rows.all WFRowB = true := by decide
  refine ⟨C1_bucket_priority MATRIX_COLUMNS exDF.rows 300 (fun c hc => hc)
    (fun r hr => WFRow_of_B (List.all_eq_true.1 hall r hr)) (by decide) (by decide)
    (Val.str "X") (by decide) 2 (by decide) (by decide), ?_, ?_, ?_, ?_⟩ <;> decide

theorem c3Name_injective : Function.Injective c3Name := by
  intro i j hij
  have hdata : List.replicate (i + 1) 'E' = List.replicate (j + 1) 'E' := by
    have := congrArg String.data hij
    simpa [c3Name] using this
  have := congrArg List.length hdata
  simpa using this

theorem c3_rows_wf : ∀ r ∈ (List.range 400).map c3Row, WFRow r := by
  intro r hr
  rw [List.mem_map] at hr
  obtain ⟨i, _, rfl⟩ := hr
  refine ⟨⟨c3Name i, rfl, ?_⟩, ⟨0, rfl, le_refl 0, by norm_num⟩, ?_⟩
  · intro hc
    have := congrArg String.data hc
    simp [c3Name] at this
  · by_cases hi : i < 10
    · exact ⟨"Failed", by simp [c3Row, rget, dget?, hi], by decide⟩
    · exact ⟨"Succeeded", by simp [c3Row, rget, dget?, hi], by decide⟩

theorem c3_names_eq : ((List.range 400).map c3Row).map (fun r => rget r "display_name") =
    (List.range 400).map (fun i => Val.str (c3Name i)) := by
  rw [List.map_map]
  exact List.map_congr_left (fun i _ => rfl)

theorem c3_names_length :
    (dedupFirst (((List.range 400).map c3Row).map (fun r => rget r "display_name"))).length = 400 := by
  rw [c3_names_eq]
  rw [dedupFirst_eq_self _ (List.Nodup.map
    (fun i j hij => c3Name_injective (Val.str.inj hij)) (List.nodup_range 400))]
  simp

/-- C3: the capping path is dead code — with more distinct entities
than `max_rows`, the scoring block's `SeriesGroupBy.apply` produces a
MultiIndex Series, `status_counts['failed']` raises `KeyError`, and the
outer handler returns the empty matrix.  On a batch with 400 distinct
entities of which the first 10 have a `"Failed"` row and
`max_rows = 300`, the result is the empty matrix: in particular none of
the 10 failing entities appears in the returned entities list,
contradicting the claim. -/
theorem C3_capping_returns_empty :
    create_hourly_matrix (some c3DF) "All Projects" "All Statuses" 300 =
      ([], [], range24) ∧
    ¬ Val.str (c3Name 0) ∈
      (create_hourly_matrix (some c3DF) "All Projects" "All Statuses" 300).2.1 := by
  have hne : (List.range 400).map c3Row ≠ [] := by
    simp [List.map_eq_nil_iff, List.range_eq_nil]
  have h := create_matrix_reduce MATRIX_COLUMNS ((List.range 400).map c3Row) 300
    (fun c hc => hc) c3_rows_wf hne
  rw [if_pos (by rw [c3_names_length]; norm_num)] at h
  have hmain : create_hourly_matrix (some c3DF) "All Projects" "All Statuses" 300 =
      ([], [], range24) := h
  refine ⟨hmain, ?_⟩
  rw [hmain]
  simp

/-- C4: the display-name repair pass is dead code — `matrix_df` is
deleted at line 271 and dereferenced at line 290, so the repair block
raises `UnboundLocalError` and its handler returns the empty matrix.
On a batch whose only display name is empty but whose owner, project
and flow name are all present (so the documented repair would rebuild
`"O | P | F"`), `create_hourly_matrix` returns the empty matrix
instead of a reconstructed one. -/
theorem C4_repair_returns_empty :
    create_hourly_matrix (some c4DF) "All Projects" "All Statuses" 300 =
      ([], [], range24) := by
  decide

/-- C8: `extract_project_name` is total (a total Lean function by
construction), returns `"Unknown"` on every non-string and every blank
input, and satisfies the four documented examples. -/
theorem C8_extract_project :
    (∀ v : Val, (∀ s : String, v ≠ Val.str s) → extract_project_name v = "Unknown") ∧
    (∀ s : String, strTrim s = "" → extract_project_name (Val.str s) = "Unknown") ∧
    extract_project_name (Val.str "AMZ - Order Processing") = "AMZ" ∧
    extract_project_name (Val.str "C2D_DataSync") = "C2D" ∧
    extract_project_name (Val.str "FinanceReportGenerator") = "Finance" ∧
    extract_project_name (Val.str "") = "Unknown" := by
  refine ⟨?_, ?_, by decide, by decide, by decide, by decide⟩
  · intro v hv
    cases v with
    | str s => exact absurd rfl (hv s)
    | int n => rfl
    | float q => rfl
    | ts d h => rfl
    | nan => rfl
  · intro s hs
    show (if strTrim s = "" then "Unknown" else extractCore (strTrim s)) = "Unknown"
    rw [if_pos hs]

/-- Witness for C8: the non-string case at `NaN` and the blank case at
a whitespace-only name. -/
theorem C8_extract_project_witness :
    extract_project_name Val.nan = "Unknown" ∧
    extract_project_name (Val.str "   ") = "Unknown" :=
  ⟨C8_extract_project.1 Val.nan (fun s hs => Val.noConfusion hs),
   C8_extract_project.2.1 "   " (by decide)⟩

theorem rget_dinsert_self (r : Row) (c : String) (v : Val) :
    rget (dinsert r c v) c = v := by
  simp [rget, dget?_dinsert_self]

theorem rget_dinsert_ne (r : Row) (c c' : String) (v : Val) (hne : c' ≠ c) :
    rget (dinsert r c v) c' = rget r c' := by
  simp [rget, dget?_dinsert_ne _ _ _ _ hne]

theorem setColWith_rows (df : DF) (c0 : String) (f : Row → Val) :
    (df.setColWith c0 f).rows = df.rows.map (fun r => dinsert r c0 (f r)) := rfl

theorem setColWith_cols_iff (df : DF) (c0 : String) (f : Row → Val) (c : String)
    (hne : c ≠ c0) : c ∈ (df.setColWith c0 f).cols ↔ c ∈ df.cols := by
  unfold DF.setColWith
  simp only
  split
  · exact Iff.rfl
  · rw [List.mem_append]
    simp [hne]

theorem setColWith_cols_of_mem (df : DF) (c0 : String) (f : Row → Val) (h : c0 ∈ df.cols) :
    (df.setColWith c0 f).cols = df.cols := by
  unfold DF.setColWith
  simp [h]

theorem setColWith_cols_of_not_mem (df : DF) (c0 : String) (f : Row → Val)
    (h : c0 ∉ df.cols) : (df.setColWith c0 f).cols = df.cols ++ [c0] := by
  unfold DF.setColWith
  simp [h]

theorem filterRows_cols (df : DF) (p : Row → Bool) : (df.filterRows p).cols = df.cols := rfl

theorem filterRows_rows (df : DF) (p : Row → Bool) :
    (df.filterRows p).rows = df.rows.filter p := rfl

theorem processBackfill_eq (df : DF)
    (h1 : "datetimestarted" ∈ df.cols) (h2 : "flowname" ∈ df.cols)
    (h3 : "taskstatus" ∈ df.cols) (h4 : "flowowner" ∈ df.cols)
    (h5 : "triggertype" ∈ df.cols) (h6 : "wassuccessful" ∉ df.cols) :
    processBackfill df = df.setColWith "wassuccessful" (fun r =>
      if rget r "taskstatus" = Val.str "Succeeded" then Val.int 1 else Val.int 0) := by
  unfold processBackfill PROCESS_COLUMNS
  simp only [List.foldl_cons, List.foldl_nil]
  rw [if_pos h1, if_pos h2, if_pos h3, if_pos h4, if_pos h5, if_neg h6]
  rw [if_pos trivial, if_pos h3]

/-- C5 (amended): when the `wassuccessful` column is absent (and the
other raw columns present), the raw-validation gate derives it as 1 iff
the (NaN-filled) status lowercases to `"succeeded"` or `"completed"`,
whereas the normalizer's column backfill derives it as 1 iff the status
equals the exact string `"Succeeded"` — a case-sensitive comparison
that gives 0 for `"Completed"`, `"succeeded"`, etc.  `processBackfill`
is the backfill loop of `process_data_for_dashboard` (lines 133–142). -/
theorem C5_wassuccessful_derivations (df : DF)
    (h1 : "datetimestarted" ∈ df.cols) (h2 : "flowname" ∈ df.cols)
    (h3 : "taskstatus" ∈ df.cols) (h4 : "flowowner" ∈ df.cols)
    (h5 : "triggertype" ∈ df.cols) (h6 : "wassuccessful" ∉ df.cols) :
    (∀ r ∈ ((validate_raw_data (some df)).2.2.getD ⟨[], []⟩).rows,
      rget r "wassuccessful" =
        match rget r "taskstatus" with
        | Val.str s =>
          if strLower s = "succeeded" ∨ strLower s = "completed" then Val.int 1 else Val.int 0
        | _ => Val.int 0) ∧
    (∀ r ∈ (processBackfill df).rows,
      rget r "wassuccessful" =
        if rget r "taskstatus" = Val.str "Succeeded" then Val.int 1 else Val.int 0) := by
  constructor
  · intro r hr
    by_cases hemp : df.rows.isEmpty = true
    · simp only [validate_raw_data, if_pos hemp] at hr
      exact absurd hr (List.not_mem_nil r)
    · have d1 : ("triggertype" : String) ≠ "flowowner" := by decide
      have d2 : ("triggertype" : String) ≠ "wassuccessful" := by decide
      have d3 : ("triggertype" : String) ≠ "taskstatus" := by decide
      have d4 : ("triggertype" : String) ≠ "datetimestarted" := by decide
      have hmiss : (["flowname", "flowowner", "datetimestarted", "taskstatus"].filter
          (fun c => decide (c ∉ df.cols))) = [] := by
        rw [List.filter_eq_nil_iff]
        intro c hc
        simp only [List.mem_cons, List.not_mem_nil, or_false] at hc
        rcases hc with rfl | rfl | rfl | rfl <;> simp [h2, h4, h1, h3]
      simp only [validate_raw_data, if_neg hemp, hmiss, List.isEmpty_nil, not_true,
        if_false, ite_false, setColWith_cols_of_mem, filterRows_cols, h1, h3, h4, h5, h6,
        not_false_iff, and_true, true_and, if_true, ite_true, Option.getD_some,
        setColWith_cols_iff, ne_eq, d1, d2, d3, d4,
        setColWith_rows, filterRows_rows, List.mem_map, List.mem_filter] at hr
      obtain ⟨a, ⟨a1, ⟨a2, ⟨a3, ⟨⟨a4, ha4, rfl⟩, hpred⟩, rfl⟩, rfl⟩, rfl⟩, rfl⟩ := hr
      have e1 : ∀ (r : Row) (v : Val),
          rget (dinsert r "triggertype" v) "wassuccessful" = rget r "wassuccessful" :=
        fun r v => rget_dinsert_ne r _ _ v (by decide)
      have e2 : ∀ (r : Row) (v : Val),
          rget (dinsert r "flowowner" v) "wassuccessful" = rget r "wassuccessful" :=
        fun r v => rget_dinsert_ne r _ _ v (by decide)
      have e3 : ∀ (r : Row) (v : Val),
          rget (dinsert r "triggertype" v) "taskstatus" = rget r "taskstatus" :=
        fun r v => rget_dinsert_ne r _ _ v (by decide)
      have e4 : ∀ (r : Row) (v : Val),
          rget (dinsert r "flowowner" v) "taskstatus" = rget r "taskstatus" :=
        fun r v => rget_dinsert_ne r _ _ v (by decide)
      have e5 : ∀ (r : Row) (v : Val),
          rget (dinsert r "wassuccessful" v) "taskstatus" = rget r "taskstatus" :=
        fun r v => rget_dinsert_ne r _ _ v (by decide)
      have e6 : ∀ (r : Row) (v : Val),
          rget (dinsert r "datetimestarted" v) "taskstatus" = rget r "taskstatus" :=
        fun r v => rget_dinsert_ne r _ _ v (by decide)
      simp only [e1, e2, e3, e4, e5, e6, rget_dinsert_self]
  · intro r hr
    rw [processBackfill_eq df h1 h2 h3 h4 h5 h6, setColWith_rows, List.mem_map] at hr
    obtain ⟨r0, _, rfl⟩ := hr
    rw [rget_dinsert_self, rget_dinsert_ne _ _ _ _ (by decide)]

/-- Witness for C5 (amended): the concrete one-row `"Completed"` batch,
where the raw gate yields 1 and the backfill yields 0. -/
theorem C5_wassuccessful_derivations_witness :
    (∀ r ∈ ((validate_raw_data (some c5DF)).2.2.getD ⟨[], []⟩).rows,
      rget r "wassuccessful" =
        match rget r "taskstatus" with
        | Val.str s =>
          if strLower s = "succeeded" ∨ strLower s = "completed" then Val.int 1 else Val.int 0
        | _ => Val.int 0) ∧
    (∀ r ∈ (processBackfill c5DF).rows,
      rget r "wassuccessful" =
        if rget r "taskstatus" = Val.str "Succeeded" then Val.int 1 else Val.int 0) := by
  have h := C5_wassuccessful_derivations c5DF (by decide) (by decide) (by decide)
    (by decide) ?_ (by decide)
  · exact h
  · decide

/-- C5 counterexample: on a one-row batch whose status is `"Completed"`
and which lacks the `wassuccessful` column, the raw-validation gate
derives `wassuccessful = 1` but the normalizer's backfill step of
`process_data_for_dashboard` derives `wassuccessful = 0`: the two
derivations disagree, because the backfill compares the status
case-sensitively to the single string `"Succeeded"`. -/
theorem C5_counterexample :
    (((validate_raw_data (some c5DF)).2.2.getD ⟨[], []⟩).rows.map
      (fun r => rget r "wassuccessful")) = [Val.int 1] ∧
    ((processBackfill c5DF).rows.map
      (fun r => rget r "wassuccessful")) = [Val.int 0] := by
  constructor <;> decide

/-- C6 counterexample: a non-empty batch holding only a `flowname`
column is rejected by `validate_processed_data`: the required-column
loop backfills `datetimestarted` with the string `'Unknown'`, the
`hour` derivation then calls `pd.to_datetime` on it, which raises, and
the outer handler returns `ok = false` — so the gate does not accept
every non-empty batch. -/
theorem C6_counterexample :
    ¬ c6DF.rows.isEmpty = true ∧ (validate_processed_data (some c6DF)).1 = false := by
  constructor <;> decide

/-- C6 (amended): `validate_processed_data` rejects null input and
empty batches, and accepts every non-empty batch that already carries
the `hour` and `display_name` columns (the required-column backfills
and the `success_rate` derivation never fail); but a non-empty batch
may be rejected when `hour` must be derived from an unparseable
`datetimestarted`. -/
theorem C6_processed_gate (df : DF)
    (hne : ¬ df.rows.isEmpty = true) (hhour : "hour" ∈ df.cols)
    (hdisp : "display_name" ∈ df.cols) :
    (validate_processed_data none).1 = false ∧
    (∀ df0 : DF, df0.rows.isEmpty = true →
      (validate_processed_data (some df0)).1 = false) ∧
    (validate_processed_data (some df)).1 = true := by
  refine ⟨rfl, ?_, validate_processed_fst df hne hhour hdisp⟩
  intro df0 h0
  rw [validate_processed_some, if_pos h0]

/-- Witness for C6 (amended): the seven-row normalized batch `exDF`,
which carries `hour` and `display_name`, is accepted. -/
theorem C6_processed_gate_witness :
    (validate_processed_data none).1 = false ∧
    (∀ df0 : DF, df0.rows.isEmpty = true →
      (validate_processed_data (some df0)).1 = false) ∧
    (validate_processed_data (some exDF)).1 = true :=
  C6_processed_gate exDF (by decide) (by decide) (by decide)

theorem chLt_trans : ∀ (as bs cs : List Char),
    chLt as bs = true → chLt bs cs = true → chLt as cs = true := by
  intro as
  induction as with
  | nil =>
    intro bs cs h1 h2
    cases bs with
    | nil => simp [chLt] at h1
    | cons b bs' =>
      cases cs with
      | nil => simp [chLt] at h2
      | cons c cs' => simp [chLt]
  | cons a as' ih =>
    intro bs cs h1 h2
    cases bs with
    | nil => simp [chLt] at h1
    | cons b bs' =>
      cases cs with
      | nil => simp [chLt] at h2
      | cons c cs' =>
        simp only [chLt, Bool.or_eq_true, Bool.and_eq_true, decide_eq_true_eq] at h1 h2 ⊢
        rcases h1 with h1 | ⟨hab, h1⟩
        · rcases h2 with h2 | ⟨hbc, h2⟩
          · exact Or.inl (lt_trans h1 h2)
          · exact Or.inl (hbc ▸ h1)
        · rcases h2 with h2 | ⟨hbc, h2⟩
          · exact Or.inl (hab ▸ h2)
          · exact Or.inr ⟨hab.trans hbc, ih bs' cs' h1 h2⟩

theorem chLt_total : ∀ (as bs : List Char), as ≠ bs →
    chLt as bs = true ∨ chLt bs as = true := by
  intro as
  induction as with
  | nil =>
    intro bs hne
    cases bs with
    | nil => exact absurd rfl hne
    | cons b bs' => exact Or.inl (by simp [chLt])
  | cons a as' ih =>
    intro bs hne
    cases bs with
    | nil => exact Or.inr (by simp [chLt])
    | cons b bs' =>
      rcases lt_trichotomy a b with h | rfl | h
      · exact Or.inl (by simp [chLt, h])
      · have hne' : as' ≠ bs' := by
          intro h'
          exact hne (by rw [h'])
        rcases ih bs' hne' with h' | h'
        · exact Or.inl (by simp [chLt, h'])
        · exact Or.inr (by simp [chLt, h'])
      · exact Or.inr (by simp [chLt, h])

theorem strLtVal_trans : ∀ (a b c : Val),
    strLtVal a b = true → strLtVal b c = true → strLtVal a c = true := by
  intro a b c h1 h2
  cases a <;> cases b <;> simp [strLtVal] at h1 <;> cases c <;> simp [strLtVal] at h2 ⊢
  exact chLt_trans _ _ _ h1 h2

theorem strLtVal_total : ∀ (a b : Val), a.isStr = true → b.isStr = true → a ≠ b →
    strLtVal a b = true ∨ strLtVal b a = true := by
  intro a b ha hb hne
  cases a with
  | str x =>
    cases b with
    | str y =>
      have hxy : x.data ≠ y.data := by
        intro h
        apply hne
        cases x
        cases y
        simp only at h
        rw [h]
      exact chLt_total x.data y.data hxy
    | int n => simp [Val.isStr] at hb
    | float q => simp [Val.isStr] at hb
    | ts d h => simp [Val.isStr] at hb
    | nan => simp [Val.isStr] at hb
  | int n => simp [Val.isStr] at ha
  | float q => simp [Val.isStr] at ha
  | ts d h => simp [Val.isStr] at ha
  | nan => simp [Val.isStr] at ha

theorem pairwise_insSorted (lt : Val → Val → Bool) (x : Val) (l : List Val)
    (htrans : ∀ a b c, lt a b = true → lt b c = true → lt a c = true)
    (htot : ∀ y ∈ l, x ≠ y → lt x y = true ∨ lt y x = true)
    (hx : x ∉ l)
    (hpw : l.Pairwise (fun a b => lt a b = true)) :
    (insSorted lt x l).Pairwise (fun a b => lt a b = true) := by
  induction l with
  | nil => simp [insSorted]
  | cons y ys ih =>
    rw [List.pairwise_cons] at hpw
    obtain ⟨hy, hys⟩ := hpw
    unfold insSorted
    by_cases hxy : lt x y = true
    · rw [if_pos hxy]
      rw [List.pairwise_cons]
      refine ⟨?_, List.pairwise_cons.2 ⟨hy, hys⟩⟩
      intro z hz
      rcases List.mem_cons.1 hz with rfl | hz
      · exact hxy
      · exact htrans x y z hxy (hy z hz)
    · rw [if_neg hxy]
      rw [List.pairwise_cons]
      constructor
      · intro z hz
        rw [mem_insSorted] at hz
        rcases hz with hz | hz
        · rw [hz]
          have hne : x ≠ y := by
            intro h
            exact hx (h ▸ List.mem_cons_self y ys)
          rcases htot y (List.mem_cons_self y ys) hne with h | h
          · exact absurd h hxy
          · exact h
        · exact hy z hz
      · exact ih (fun z hz hne => htot z (List.mem_cons_of_mem y hz) hne)
          (fun h => hx (List.mem_cons_of_mem y h)) hys

theorem pairwise_sortBy (lt : Val → Val → Bool) (l : List Val)
    (htrans : ∀ a b c, lt a b = true → lt b c = true → lt a c = true)
    (htot : ∀ a ∈ l, ∀ b ∈ l, a ≠ b → lt a b = true ∨ lt b a = true)
    (hnd : l.Nodup) :
    (sortBy lt l).Pairwise (fun a b => lt a b = true) := by
  induction l with
  | nil => simp [sortBy]
  | cons x xs ih =>
    have hstep : sortBy lt (x :: xs) = insSorted lt x (sortBy lt xs) := rfl
    rw [hstep]
    rw [List.nodup_cons] at hnd
    apply pairwise_insSorted lt x (sortBy lt xs) htrans
    · intro y hy hne
      rw [mem_sortBy] at hy
      exact htot x (List.mem_cons_self x xs) y (List.mem_cons_of_mem x hy) hne
    · intro h
      rw [mem_sortBy] at h
      exact hnd.1 h
    · exact ih (fun a ha b hb hne =>
        htot a (List.mem_cons_of_mem x ha) b (List.mem_cons_of_mem x hb) hne) hnd.2

theorem npUnique_pairwise (vs us : List Val) (hstr : ∀ v ∈ vs, v.isStr = true)
    (hu : npUnique vs = some us) :
    us.Pairwise (fun a b => strLtVal a b = true) := by
  unfold npUnique at hu
  by_cases hlen : (dedupFirst vs).length ≤ 1
  · rw [if_pos hlen] at hu
    obtain rfl := Option.some.inj hu
    match hd : dedupFirst vs, hlen with
    | [], _ => exact List.Pairwise.nil
    | [a], _ => exact List.pairwise_singleton _ a
  · rw [if_neg hlen] at hu
    have hall : (dedupFirst vs).all Val.isStr = true := by
      rw [List.all_eq_true]
      intro v hv
      exact hstr v ((mem_dedupFirst vs v).1 hv)
    rw [if_pos hall] at hu
    obtain rfl := Option.some.inj hu
    apply pairwise_sortBy strLtVal (dedupFirst vs) strLtVal_trans
    · intro a ha b hb hne
      exact strLtVal_total a b (List.all_eq_true.1 hall a ha) (List.all_eq_true.1 hall b hb) hne
    · exact nodup_dedupFirst vs

theorem pyMaxFold_first (f : Val → Nat) (lt : Val → Val → Bool) :
    ∀ (xs : List Val) (acc m : Val),
      xs.foldl (fun a y => if f y > f a then y else a) acc = m →
      ((acc :: xs).Pairwise (fun a b => lt a b = true)) →
      (m = acc ∨ m ∈ xs) ∧ f acc ≤ f m ∧ (m ≠ acc → f acc < f m) ∧
      (∀ y ∈ acc :: xs, f y = f m → y = m ∨ lt m y = true) := by
  intro xs
  induction xs with
  | nil =>
    intro acc m hm hpw
    obtain rfl := hm
    refine ⟨Or.inl rfl, le_refl _, fun h => absurd rfl h, ?_⟩
    intro y hy hf
    rcases List.mem_cons.1 hy with rfl | hy
    · exact Or.inl rfl
    · exact absurd hy (List.not_mem_nil y)
  | cons z zs ih =>
    intro acc m hm hpw
    rw [List.foldl_cons] at hm
    rw [List.pairwise_cons] at hpw
    obtain ⟨hacc, hpw'⟩ := hpw
    have hz : ∀ w ∈ zs, lt z w = true := (List.pairwise_cons.1 hpw').1
    have hzs : zs.Pairwise (fun a b => lt a b = true) := (List.pairwise_cons.1 hpw').2
    by_cases hzacc : f z > f acc
    · rw [if_pos hzacc] at hm
      have hpw2 : (z :: zs).Pairwise (fun a b => lt a b = true) := hpw'
      obtain ⟨hi, hii, hiii, hiv⟩ := ih z m hm hpw2
      refine ⟨?_, ?_, ?_, ?_⟩
      · rcases hi with h | h
        · exact Or.inr (by rw [h]; exact List.mem_cons_self z zs)
        · exact Or.inr (List.mem_cons_of_mem z h)
      · exact le_trans (le_of_lt hzacc) hii
      · intro _
        exact lt_of_lt_of_le hzacc hii
      · intro y hy hf
        rcases List.mem_cons.1 hy with hy | hy
        · exfalso
          have h1 : f y < f m := by
            rw [hy]
            exact lt_of_lt_of_le hzacc hii
          omega
        · exact hiv y hy hf
    · rw [if_neg hzacc] at hm
      have hpw2 : (acc :: zs).Pairwise (fun a b => lt a b = true) := by
        rw [List.pairwise_cons]
        exact ⟨fun w hw => hacc w (List.mem_cons_of_mem z hw), hzs⟩
      obtain ⟨hi, hii, hiii, hiv⟩ := ih acc m hm hpw2
      refine ⟨?_, ?_, ?_, ?_⟩
      · rcases hi with h | h
        · exact Or.inl h
        · exact Or.inr (List.mem_cons_of_mem z h)
      · exact hii
      · exact hiii
      · intro y hy hf
        rcases List.mem_cons.1 hy with hy | hy
        · rw [hy] at hf ⊢
          exact hiv acc (List.mem_cons_self acc zs) hf
        · rcases List.mem_cons.1 hy with hy | hy
          · -- y = z, the accumulator was kept (f z <= f acc)
            push_neg at hzacc
            rw [hy] at hf ⊢
            have hfz : f z ≤ f acc := hzacc
            have hfacc : f acc = f m := by omega
            have hm_acc : m = acc := by
              by_cases h : m = acc
              · exact h
              · exact absurd (hiii h) (by omega)
            right
            rw [hm_acc]
            exact hacc z (List.mem_cons_self z zs)
          · exact hiv y (List.mem_cons_of_mem acc hy) hf

/-- C9: when `create_hourly_matrix` reduces a non-empty
`(display_name, hour)` bucket of string statuses, the chosen cell value
(the `max` over `np.unique` of the bucket keyed by `STATUS_PRIORITY`)
is a bucket status of maximal priority, and among distinct statuses
tied at that maximal priority it is the lexicographically smallest:
every other tied status is strictly greater in string order. -/
theorem C9_tie_break (rows : List Row) (k : Val × Val) (us : List Val)
    (hstr : ∀ v ∈ bucketStatuses rows k, v.isStr = true)
    (hu : npUnique (bucketStatuses rows k) = some us) (hne : us ≠ []) :
    pyMaxBy STATUS_PRIORITY us ∈ us ∧
    (∀ y ∈ us, STATUS_PRIORITY y ≤ STATUS_PRIORITY (pyMaxBy STATUS_PRIORITY us)) ∧
    (∀ y ∈ us, STATUS_PRIORITY y = STATUS_PRIORITY (pyMaxBy STATUS_PRIORITY us) →
      y = pyMaxBy STATUS_PRIORITY us ∨
        strLtVal (pyMaxBy STATUS_PRIORITY us) y = true) := by
  have hpw := npUnique_pairwise _ us hstr hu
  obtain ⟨hmem, hmax⟩ := pyMaxBy_spec STATUS_PRIORITY us hne
  refine ⟨hmem, hmax, ?_⟩
  match us, hne, hpw with
  | x :: xs, _, hpw =>
    have hfold := pyMaxFold_first STATUS_PRIORITY strLtVal xs x
      (pyMaxBy STATUS_PRIORITY (x :: xs)) rfl hpw
    exact hfold.2.2.2

/-- Witness for C9: the tie bucket {Succeeded, Completed} at hour 5 of
a two-row group: `np.unique` sorts the distinct statuses to
[Completed, Succeeded], both score 60, and `"Completed"` — the
lexicographically smallest — is chosen. -/
theorem C9_tie_break_witness :
    pyMaxBy STATUS_PRIORITY [Val.str "Completed", Val.str "Succeeded"] ∈
      [Val.str "Completed", Val.str "Succeeded"] ∧
    (∀ y ∈ [Val.str "Completed", Val.str "Succeeded"],
      STATUS_PRIORITY y ≤ STATUS_PRIORITY
        (pyMaxBy STATUS_PRIORITY [Val.str "Completed", Val.str "Succeeded"])) ∧
    (∀ y ∈ [Val.str "Completed", Val.str "Succeeded"],
      STATUS_PRIORITY y = STATUS_PRIORITY
          (pyMaxBy STATUS_PRIORITY [Val.str "Completed", Val.str "Succeeded"]) →
      y = pyMaxBy STATUS_PRIORITY [Val.str "Completed", Val.str "Succeeded"] ∨
        strLtVal (pyMaxBy STATUS_PRIORITY
          [Val.str "Completed", Val.str "Succeeded"]) y = true) :=
  C9_tie_break [exRow 5 "Succeeded", exRow 5 "Completed"] (Val.str "X", Val.int 5)
    [Val.str "Completed", Val.str "Succeeded"] (by decide) (by decide) (by decide)
